import Mathlib

/-!
# memorytopo lock protocol (go/vt/topo/memorytopo/lock.go)

A shallow embedding of `convertError`, `Conn.Lock`, `Conn.unlock` and the
lock descriptor of the in-memory topology server, followed by the theorems
that settle the claims of the specification.

Modelling conventions.

* The store-wide mutex `c.factory.mu` is modelled by atomicity: every function
  below that takes and returns a `Factory` is one critical section.
* A Go channel is an object with identity.  Lock signals (`chan struct{}`) are
  natural numbers; the set of closed ones is `Factory.closed`; `make` returns
  an identifier that occurs nowhere in the store.
* A watcher channel (`chan string`) is a natural number too.  `Factory.ready`
  holds one entry for every send that a watcher channel can accept at this
  moment (a free buffer slot, or a receiver that waits); `Factory.sent` is the
  trace of the sends that have completed.
* `Conn.Lock` is a loop that can suspend in the `select` and in the send
  `w.lock <- contents`.  It is embedded as `Conn.lockBody` (one run of the loop
  body, lines 46-89, up to the `select` or a `return`) and `lockSelect` (the
  `select`, lines 66-73).  A run of the body in which a send cannot complete
  does not return: the caller stays in the send, inside the critical section,
  so no other critical section can start either; `Conn.lockBody` is `none` then
  and the system has no step for it.  A send that waits and completes once the
  watcher receives is the run in which the receive comes first.
  `System` interleaves any number of such calls with `Unlock` calls and with
  the receives of the watchers.
-/

namespace memorytopo

/-! ## Errors -/

/-- Error codes of package `topo` that `lock.go` builds, and any further code. -/
inductive ErrorCode where
  | NoNode
  | Timeout
  | Interrupted
  | code (n : Nat)
  deriving DecidableEq

/-- Go `error` values that flow through `lock.go`.  A nil `error` is `none`
in `Option Error`. -/
inductive Error where
  /-- The sentinel `context.Canceled`. -/
  | Canceled
  /-- The sentinel `context.DeadlineExceeded`. -/
  | DeadlineExceeded
  /-- The value `topo.NewError(code, nodePath)`. -/
  | topo (code : ErrorCode) (nodePath : String)
  /-- The value `fmt.Errorf(...)` with the formatted message. -/
  | errorf (msg : String)
  /-- Any other error value (session errors, injected store faults, ...). -/
  | other (tag : Nat)
  deriving DecidableEq

/-- The constructor `topo.NewError` (package `topo` is not part of this unit):
an error of the given code carrying the node path. -/
def NewError (code : ErrorCode) (nodePath : String) : Error :=
  Error.topo code nodePath

/-- Source lines 27-35: `convertError` converts a context error into a topo error. -/
def convertError (err : Option Error) (nodePath : String) : Option Error :=
  match err with
  | some Error.Canceled => some (NewError ErrorCode.Interrupted nodePath)
  | some Error.DeadlineExceeded => some (NewError ErrorCode.Timeout nodePath)
  | _ => err

/-! ## Data model -/

/-- Modelled from the spec: the watcher type is declared outside `lock.go`.
A watcher optionally has a `lock` channel (`chan string`, nil when the watcher
has no interest in lock changes); the channel is named by a number. -/
structure watch where
  lock : Option Nat
  deriving DecidableEq

/-- Modelled from the spec: the node type is declared outside `lock.go`.
Only the three fields that `lock.go` touches are kept: the lock signal
(`chan struct{}`, nil when unlocked), the lock contents and the ordered list of
watchers. -/
structure node where
  lock : Option Nat
  lockContents : String
  watches : List watch
  deriving DecidableEq

/-- Modelled from the spec: the factory (the shared store) is declared outside
`lock.go`.  `err` is the store-wide fault value, `nodes` the nodes keyed by
(cell, path).  `closed`, `sent` and `ready` are the state of the channel objects
the store refers to: the lock signals that have been closed; the sends
`w.lock <- contents` that have completed, oldest first; and, for the watcher
channels, one entry per send that the channel can accept now without blocking
(a channel that occurs k times can take k sends). -/
structure Factory where
  err : Option Error
  nodes : List ((String × String) × node)
  closed : List Nat
  sent : List (Nat × String)
  ready : List Nat
  deriving DecidableEq

/-- Modelled from the spec: a connection is bound to a cell; `id` stands for the
identity of the `*Conn` pointer. -/
structure Conn where
  id : Nat
  cell : String
  deriving DecidableEq

/-- Source lines 38-41: `memoryTopoLockDescriptor`. -/
structure memoryTopoLockDescriptor where
  c : Conn
  dirPath : String
  deriving DecidableEq

/-- First entry of an association list of nodes with the given key. -/
def lookupNode (k : String × String) : List ((String × String) × node) → Option node
  | [] => none
  | (k', n) :: rest => if k' = k then some n else lookupNode k rest

/-- Overwrite the first entry with the given key (a write through the node
pointer that `nodeByPath` returned). -/
def storeNode (k : String × String) (n' : node) :
    List ((String × String) × node) → List ((String × String) × node)
  | [] => []
  | (k', n) :: rest =>
    if k' = k then (k', n') :: rest else (k', n) :: storeNode k n' rest

/-- Modelled from the spec: `nodeByPath` is defined outside `lock.go`; it
resolves (cell, path) to the node, or to nil when there is none. -/
def Factory.nodeByPath (f : Factory) (cell dirPath : String) : Option node :=
  lookupNode (cell, dirPath) f.nodes

/-- Every lock-signal identifier the store refers to. -/
def Factory.chans (f : Factory) : List Nat :=
  f.closed ++ f.nodes.filterMap (fun e => e.2.lock)

/-- The result of `make(chan struct{})`: a channel distinct from every channel
the store refers to (and open, since it is not in `closed`). -/
def Factory.makeChan (f : Factory) : Nat :=
  f.chans.foldr max 0 + 1

/-- Source lines 79-84: the loop over `n.watches`; a watcher whose `lock` is
nil is skipped, every other one is sent `contents`.  The send `w.lock <- contents`
blocks unless the channel can accept it: when `ch` is in `ready` the send
completes (it is appended to `sent` and uses up one entry of `ready`) and the
loop goes on; otherwise the loop does not finish and the result is `none`.
A finished loop yields the new `sent` and `ready`. -/
def notifyWatches (contents : String) :
    List watch → List (Nat × String) → List Nat → Option (List (Nat × String) × List Nat)
  | [], sent, ready => some (sent, ready)
  | w :: ws, sent, ready =>
    match w.lock with
    | none => notifyWatches contents ws sent ready
    | some ch =>
      if ch ∈ ready then notifyWatches contents ws (sent ++ [(ch, contents)]) (ready.erase ch)
      else none

/-! ## Conn.Lock -/

/-- Where a call of `Conn.Lock` stands. -/
inductive LockPc where
  /-- At the head of the `for` loop (line 45). -/
  | top
  /-- Blocked in the `select` (line 66) on the captured signal `l`. -/
  | waiting (l : Nat)
  /-- Returned `(ld, err)`. -/
  | returned (ld : Option memoryTopoLockDescriptor) (err : Option Error)
  deriving DecidableEq

/-- Source lines 46-89: one run of the loop body of `Conn.Lock`, from `c.dial`
to the `select` or to a `return`.  `dialErr` is what `c.dial(ctx)` returned
(the session layer is outside this unit).  The result is `none` when the run
does not get that far: on the grant path a send to a watcher blocks (line 83),
and the caller stays there, holding the mutex. -/
def Conn.lockBody (c : Conn) (f : Factory) (dialErr : Option Error)
    (dirPath contents : String) : Option (Factory × LockPc) :=
  match dialErr with
  | some e => some (f, LockPc.returned none (some e))
  | none =>
    match f.err with
    | some e => some (f, LockPc.returned none (some e))
    | none =>
      match f.nodeByPath c.cell dirPath with
      | none => some (f, LockPc.returned none (some (NewError ErrorCode.NoNode dirPath)))
      | some n =>
        match n.lock with
        | some l => some (f, LockPc.waiting l)
        | none =>
          let n' : node := ⟨some f.makeChan, contents, n.watches⟩
          match notifyWatches contents n.watches f.sent f.ready with
          | none => none
          | some (sent', ready') =>
            some (⟨f.err, storeNode (c.cell, dirPath) n' f.nodes, f.closed, sent', ready'⟩,
              LockPc.returned (some ⟨c, dirPath⟩) none)

/-- The two cases of the `select` at lines 66-73. -/
inductive SelectCase where
  /-- The case `<-l`: the captured signal. -/
  | signal
  /-- The case `<-ctx.Done()`. -/
  | done
  deriving DecidableEq

/-- Whether a case of the `select` can proceed.  Nothing is ever sent on a lock
signal, so `<-l` proceeds exactly when `l` is closed; `<-ctx.Done()` proceeds
exactly when `ctx.Err()` is non-nil. -/
def selectReady (f : Factory) (l : Nat) (ctxErr : Option Error) : SelectCase → Bool
  | SelectCase.signal => decide (l ∈ f.closed)
  | SelectCase.done => ctxErr.isSome

/-- Source lines 66-73: the `select` taking case `k`; `none` when that case
cannot proceed (the call stays blocked).  `ctxErr` is `ctx.Err()`. -/
def lockSelect (f : Factory) (l : Nat) (ctxErr : Option Error) (dirPath : String)
    (k : SelectCase) : Option LockPc :=
  if selectReady f l ctxErr k then
    match k with
    | SelectCase.signal => some LockPc.top
    | SelectCase.done => some (LockPc.returned none (convertError ctxErr dirPath))
  else none

/-! ## Unlock and Check -/

/-- Source lines 104-119: `Conn.unlock`.  The result is `none` when the Go code
panics (`close` of a closed channel), otherwise the store afterwards and the
returned error. -/
def Conn.unlock (c : Conn) (f : Factory) (dirPath : String) : Option (Factory × Option Error) :=
  match f.nodeByPath c.cell dirPath with
  | none => some (f, some (NewError ErrorCode.NoNode dirPath))
  | some n =>
    match n.lock with
    | none => some (f, some (Error.errorf ("node " ++ dirPath ++ " is not locked")))
    | some l =>
      if l ∈ f.closed then none
      else
        some (⟨f.err, storeNode (c.cell, dirPath) ⟨none, "", n.watches⟩ f.nodes,
                l :: f.closed, f.sent, f.ready⟩, none)

/-- Source lines 100-102: `memoryTopoLockDescriptor.Unlock`. -/
def memoryTopoLockDescriptor.Unlock (ld : memoryTopoLockDescriptor) (f : Factory) :
    Option (Factory × Option Error) :=
  ld.c.unlock f ld.dirPath

/-- Source lines 95-97: `memoryTopoLockDescriptor.Check`. -/
def memoryTopoLockDescriptor.Check (_ld : memoryTopoLockDescriptor) (f : Factory) :
    Factory × Option Error :=
  (f, none)

/-! ## Interleavings -/

/-- A call of `Conn.Lock` together with its arguments, and the result of the
`Unlock` invoked on the descriptor it returned (`none` while `Unlock` has not
been invoked on it). -/
structure LockCall where
  c : Conn
  dirPath : String
  contents : String
  pc : LockPc
  unlocked : Option (Option Error)
  deriving DecidableEq

/-- The shared store and the calls made so far. -/
structure System where
  factory : Factory
  calls : List LockCall
  deriving DecidableEq

/-- The atomic steps of an interleaving. -/
inductive Event where
  /-- A caller invokes `c.Lock(ctx, dirPath, contents)`. -/
  | call (c : Conn) (dirPath contents : String)
  /-- Call `i` runs the loop body once; `dialErr` is the result of `c.dial`. -/
  | body (i : Nat) (dialErr : Option Error)
  /-- Call `i`, blocked in the `select`, takes case `k`; `ctxErr` is `ctx.Err()`. -/
  | select (i : Nat) (ctxErr : Option Error) (k : SelectCase)
  /-- `Unlock` is invoked on the descriptor returned by call `i`, on which it
  has not been invoked before. -/
  | unlock (i : Nat)
  /-- The owner of the watcher channel `ch` receives from it (or starts to):
  the channel can accept one more send. -/
  | recv (ch : Nat)
  deriving DecidableEq

/-- One step of the system; `none` when the event cannot happen in this state,
when the Go code panics, or when the run of the loop body does not return
because a send to a watcher blocks. -/
def System.step (s : System) : Event → Option System
  | Event.call c dirPath contents =>
    some ⟨s.factory, s.calls ++ [⟨c, dirPath, contents, LockPc.top, none⟩]⟩
  | Event.body i dialErr =>
    match s.calls[i]? with
    | some ⟨c, dirPath, contents, LockPc.top, u⟩ =>
      match c.lockBody s.factory dialErr dirPath contents with
      | some (f', pc) => some ⟨f', s.calls.set i ⟨c, dirPath, contents, pc, u⟩⟩
      | none => none
    | _ => none
  | Event.select i ctxErr k =>
    match s.calls[i]? with
    | some ⟨c, dirPath, contents, LockPc.waiting l, u⟩ =>
      match lockSelect s.factory l ctxErr dirPath k with
      | some pc => some ⟨s.factory, s.calls.set i ⟨c, dirPath, contents, pc, u⟩⟩
      | none => none
    | _ => none
  | Event.unlock i =>
    match s.calls[i]? with
    | some ⟨c, dirPath, contents, LockPc.returned (some ld) e, none⟩ =>
      match ld.Unlock s.factory with
      | some (f', r) =>
        some ⟨f', s.calls.set i ⟨c, dirPath, contents, LockPc.returned (some ld) e, some r⟩⟩
      | none => none
    | _ => none
  | Event.recv ch =>
    some ⟨⟨s.factory.err, s.factory.nodes, s.factory.closed, s.factory.sent,
      ch :: s.factory.ready⟩, s.calls⟩

/-- Run a sequence of events, oldest first. -/
def System.run (s : System) : List Event → Option System
  | [] => some s
  | e :: es =>
    match s.step e with
    | some s' => s'.run es
    | none => none

/-- The call holds a granted and not yet released descriptor for the node
(cell, path): `Lock` returned a descriptor for it and no `Unlock` on that
descriptor has succeeded. -/
def LockCall.holds (k : String × String) (lc : LockCall) : Bool :=
  match lc.pc, lc.unlocked with
  | LockPc.returned (some ld) _, none => decide ((ld.c.cell, ld.dirPath) = k)
  | LockPc.returned (some ld) _, some (some _) => decide ((ld.c.cell, ld.dirPath) = k)
  | _, _ => false

/-- Number of descriptors for (cell, path) that are granted and not yet released. -/
def System.holders (s : System) (k : String × String) : Nat :=
  s.calls.countP (LockCall.holds k)

/-- Every node of the store is unlocked. -/
def Factory.allUnlocked (f : Factory) : Prop :=
  ∀ e ∈ f.nodes, e.2.lock = none

instance (f : Factory) : Decidable f.allUnlocked := by
  unfold Factory.allUnlocked; infer_instance

/-! ## Example stores used to instantiate the theorems -/

/-- A connection to cell "zone1". -/
def connA : Conn := ⟨1, "zone1"⟩

/-- Another connection to cell "zone1". -/
def connB : Conn := ⟨2, "zone1"⟩

/-- A store with one unlocked node "/keyspace1/shard0" in cell "zone1" that has
three watchers, the second one without lock interest; the channels 7 and 8 of
the other two can accept three sends each. -/
def storeFree : Factory :=
  ⟨none, [(("zone1", "/keyspace1/shard0"), ⟨none, "", [⟨some 7⟩, ⟨none⟩, ⟨some 8⟩]⟩)], [], [],
    [7, 8, 7, 8, 7, 8]⟩

/-- The store `storeFree` after `connA` was granted the lock with contents
"A-election". -/
def storeHeld : Factory :=
  ⟨none, [(("zone1", "/keyspace1/shard0"),
      ⟨some 1, "A-election", [⟨some 7⟩, ⟨none⟩, ⟨some 8⟩]⟩)], [],
    [(7, "A-election"), (8, "A-election")], [7, 8, 7, 8]⟩

/-- The store `storeHeld` with the store-wide fault value set. -/
def storeFaulty : Factory :=
  ⟨some (Error.other 5), storeHeld.nodes, storeHeld.closed, storeHeld.sent, storeHeld.ready⟩

/-- The store `storeFree` when the channel 7 of the first watcher can accept no
send (its buffer is full and its owner does not receive); channel 8 can. -/
def storeFull : Factory :=
  ⟨none, [(("zone1", "/keyspace1/shard0"), ⟨none, "", [⟨some 7⟩, ⟨none⟩, ⟨some 8⟩]⟩)], [], [],
    [8]⟩

/-- The descriptor that `connA` got for "/keyspace1/shard0". -/
def descA : memoryTopoLockDescriptor := ⟨connA, "/keyspace1/shard0"⟩

/-- The lock channels of the watchers of a node, in registration order. -/
def node.lockWatchers (n : node) : List Nat :=
  n.watches.filterMap (fun w => w.lock)

/-- A system on `storeHeld`: the call of `connA` has returned its descriptor,
the call of `connB` is blocked in the `select` on signal 1. -/
def systemContended : System :=
  ⟨storeHeld,
    [⟨connA, "/keyspace1/shard0", "A-election", LockPc.returned (some descA) none, none⟩,
     ⟨connB, "/keyspace1/shard0", "B-election", LockPc.waiting 1, none⟩]⟩

/-- A run in which `connA` and `connB` both call `Lock` on the same node:
`connA` is granted the lock, `connB` blocks, `connA` unlocks, `connB` wakes up
and is granted the lock. -/
def handover : List Event :=
  [Event.call connA "/keyspace1/shard0" "A-election",
   Event.call connB "/keyspace1/shard0" "B-election",
   Event.body 0 none, Event.body 1 none, Event.unlock 0,
   Event.select 1 none SelectCase.signal, Event.body 1 none]

/-- The state that the run `handover` reaches from `storeFree`. -/
def systemAfterHandover : System :=
  ⟨⟨none, [(("zone1", "/keyspace1/shard0"),
        ⟨some 2, "B-election", [⟨some 7⟩, ⟨none⟩, ⟨some 8⟩]⟩)], [1],
      [(7, "A-election"), (8, "A-election"), (7, "B-election"), (8, "B-election")], [7, 8]⟩,
    [⟨connA, "/keyspace1/shard0", "A-election", LockPc.returned (some descA) none, some none⟩,
     ⟨connB, "/keyspace1/shard0", "B-election",
        LockPc.returned (some ⟨connB, "/keyspace1/shard0"⟩) none, none⟩]⟩

/-- The invariant behind mutual exclusion: every node has either no holder, or
exactly one holder and then it carries a lock signal that is not closed; and no
two nodes share a lock signal. -/
def System.Inv (s : System) : Prop :=
  (∀ k, s.holders k = 0 ∨
    (s.holders k = 1 ∧ ∃ n l, lookupNode k s.factory.nodes = some n ∧ n.lock = some l ∧
      l ∉ s.factory.closed)) ∧
  (∀ k1 k2 n1 n2 l, lookupNode k1 s.factory.nodes = some n1 →
    lookupNode k2 s.factory.nodes = some n2 → n1.lock = some l → n2.lock = some l → k1 = k2)

/-- An operation on the store: one run of the loop body of `Lock` by any
connection, or `Unlock` on any descriptor (whether or not a `Lock` returned it). -/
inductive StoreOp where
  | lock (c : Conn) (dialErr : Option Error) (dirPath contents : String)
  | unlock (ld : memoryTopoLockDescriptor)
  /-- The owner of the watcher channel `ch` receives from it. -/
  | recv (ch : Nat)
  deriving DecidableEq

/-- The store after one operation, whatever it returned; `none` when the Go
code panics or the operation does not return. -/
def Factory.apply (f : Factory) : StoreOp → Option Factory
  | StoreOp.lock c dialErr dirPath contents =>
    (c.lockBody f dialErr dirPath contents).map Prod.fst
  | StoreOp.unlock ld => (ld.Unlock f).map Prod.fst
  | StoreOp.recv ch => some ⟨f.err, f.nodes, f.closed, f.sent, ch :: f.ready⟩

/-- The store after a sequence of operations, oldest first. -/
def Factory.exec (f : Factory) : List StoreOp → Option Factory
  | [] => some f
  | op :: ops =>
    match f.apply op with
    | some f' => f'.exec ops
    | none => none

/-- Every node of the store is unlocked and has empty lock contents. -/
def Factory.allUnlockedEmpty (f : Factory) : Prop :=
  ∀ e ∈ f.nodes, e.2.lock = none ∧ e.2.lockContents = ""

instance (f : Factory) : Decidable f.allUnlockedEmpty := by
  unfold Factory.allUnlockedEmpty; infer_instance

/-- Every node of the store that has no lock signal has empty lock contents. -/
def Factory.contentsOk (f : Factory) : Prop :=
  ∀ e ∈ f.nodes, e.2.lock = none → e.2.lockContents = ""

instance (f : Factory) : Decidable f.contentsOk := by
  unfold Factory.contentsOk; infer_instance

/-- Every call blocked in the `select` holds a signal that is the current
signal of its node, which is still locked, or a signal that has been closed. -/
def System.WaitersOk (s : System) : Prop :=
  ∀ lc ∈ s.calls, ∀ l, lc.pc = LockPc.waiting l →
    (∃ n, s.factory.nodeByPath lc.c.cell lc.dirPath = some n ∧ n.lock = some l ∧
      l ∉ s.factory.closed) ∨ l ∈ s.factory.closed

/-- The call is an attempt to lock `dirPath` in `cell` that stands at the head
of the loop and whose descriptor, once granted, has not been unlocked. -/
def LockCall.contends (cell dirPath : String) (lc : LockCall) : Bool :=
  decide (lc.c.cell = cell ∧ lc.dirPath = dirPath ∧ lc.pc = LockPc.top ∧ lc.unlocked = none)

/-- The call is blocked in the `select` on signal `l` for `dirPath` in `cell`. -/
def LockCall.blockedOn (cell dirPath : String) (l : Nat) (lc : LockCall) : Bool :=
  decide (lc.c.cell = cell ∧ lc.dirPath = dirPath ∧ lc.pc = LockPc.waiting l ∧
    lc.unlocked = none)

/-- The call has returned the descriptor `(c, dirPath)` with a nil error, for
`dirPath` in `cell`. -/
def LockCall.granted (cell dirPath : String) (lc : LockCall) : Bool :=
  decide (lc.c.cell = cell ∧ lc.dirPath = dirPath ∧
    lc.pc = LockPc.returned (some ⟨lc.c, dirPath⟩) none)

/-- The calls `ws` (pairwise distinct) all attempt to lock the node `dirPath` of
`cell`, which exists and is unlocked, on a store without fault. -/
def System.Contend (s : System) (cell dirPath : String) (ws : List Nat) : Prop :=
  s.factory.err = none ∧
  (s.factory.nodeByPath cell dirPath).map node.lock = some none ∧
  ws.Nodup ∧
  ∀ j ∈ ws, (s.calls[j]?).map (LockCall.contends cell dirPath) = some true

/-- The list `chs` written `k` times in a row. -/
def repeatChans : Nat → List Nat → List Nat
  | 0, _ => []
  | k + 1, chs => chs ++ repeatChans k chs

/-- The lock channels of the watchers of the node `dirPath` of `cell` can accept
`k` sends each (counted with multiplicity: the notifications of `k` grants). -/
def System.Room (s : System) (cell dirPath : String) (k : Nat) : Prop :=
  (s.factory.nodeByPath cell dirPath).map
    (fun n => decide (List.Subperm (repeatChans k n.lockWatchers) s.factory.ready)) = some true

instance (s : System) (cell dirPath : String) (k : Nat) : Decidable (s.Room cell dirPath k) := by
  unfold System.Room; infer_instance

/-- The schedule of a race among the calls `i :: rest`, with live sessions and no
cancellation: every call runs the loop body (`i` first), the holder `i` unlocks,
every other call takes the case `<-l` of its `select`, and the race goes on
among `rest`. -/
def raceEvents : List Nat → List Event
  | [] => []
  | i :: rest =>
    (Event.body i none :: rest.map (fun j => Event.body j none)) ++
      (Event.unlock i :: rest.map (fun j => Event.select j none SelectCase.signal)) ++
      raceEvents rest

/-- A connection to cell "zone1", the third one. -/
def connC : Conn := ⟨3, "zone1"⟩

/-- Three calls of `Lock` on the unlocked node of `storeFree`, none of which has
run yet. -/
def systemThree : System :=
  ⟨storeFree,
    [⟨connA, "/keyspace1/shard0", "A-election", LockPc.top, none⟩,
     ⟨connB, "/keyspace1/shard0", "B-election", LockPc.top, none⟩,
     ⟨connC, "/keyspace1/shard0", "C-election", LockPc.top, none⟩]⟩

/-- A system on `storeFree` with one call of `connA` at the head of the loop. -/
def systemOne : System :=
  ⟨storeFree, [⟨connA, "/keyspace1/shard0", "A-election", LockPc.top, none⟩]⟩

/-- Every call blocked in the `select` holds the current signal of its node or
a closed signal (the form of `WaitersOk` that the steps preserve). -/
def System.WaitersTied (s : System) : Prop :=
  ∀ lc ∈ s.calls, ∀ l, lc.pc = LockPc.waiting l →
    (∃ n, s.factory.nodeByPath lc.c.cell lc.dirPath = some n ∧ n.lock = some l) ∨
      l ∈ s.factory.closed

/-- A run from `storeFree` that ends in `systemContended`: `connA` and `connB`
call `Lock`, `connA` is granted the lock and `connB` blocks. -/
def contention : List Event :=
  [Event.call connA "/keyspace1/shard0" "A-election",
   Event.call connB "/keyspace1/shard0" "B-election",
   Event.body 0 none, Event.body 1 none]

/-- A system on `storeFull` with one call of `connA` at the head of the loop. -/
def systemFull : System :=
  ⟨storeFull, [⟨connA, "/keyspace1/shard0", "A-election", LockPc.top, none⟩]⟩

/-! ## Lemmas on the node store and on channels -/

theorem lookupNode_storeNode_same (k : String × String) (n' : node)
    (ns : List ((String × String) × node)) (h : (lookupNode k ns).isSome) :
    lookupNode k (storeNode k n' ns) = some n' := by
  induction ns with
  | nil => simp [lookupNode] at h
  | cons e rest ih =>
    obtain ⟨k', n⟩ := e
    by_cases hk : k' = k
    · simp [storeNode, lookupNode, hk]
    · simp [storeNode, lookupNode, hk] at h ⊢
      exact ih h

theorem lookupNode_storeNode_other (k k2 : String × String) (n' : node)
    (ns : List ((String × String) × node)) (h : k2 ≠ k) :
    lookupNode k2 (storeNode k n' ns) = lookupNode k2 ns := by
  induction ns with
  | nil => simp [storeNode]
  | cons e rest ih =>
    obtain ⟨k', n⟩ := e
    by_cases hk : k' = k
    · subst hk
      have hne : ¬ k' = k2 := fun h' => h h'.symm
      simp [storeNode, lookupNode, hne]
    · by_cases hk2 : k' = k2
      · subst hk2
        simp [storeNode, lookupNode, hk]
      · simp [storeNode, lookupNode, hk, hk2, ih]

theorem le_foldr_max (xs : List Nat) (x : Nat) (h : x ∈ xs) : x ≤ xs.foldr max 0 := by
  induction xs with
  | nil => simp at h
  | cons y ys ih =>
    simp only [List.foldr_cons]
    rcases List.mem_cons.mp h with rfl | h'
    · exact le_max_left _ _
    · exact le_trans (ih h') (le_max_right _ _)

theorem makeChan_not_mem_chans (f : Factory) : f.makeChan ∉ f.chans := by
  intro h
  have := le_foldr_max f.chans f.makeChan h
  unfold Factory.makeChan at this
  omega

theorem makeChan_not_closed (f : Factory) : f.makeChan ∉ f.closed := by
  intro h
  exact makeChan_not_mem_chans f (by unfold Factory.chans; exact List.mem_append_left _ h)

theorem lookupNode_mem (k : String × String) (n : node)
    (ns : List ((String × String) × node)) (h : lookupNode k ns = some n) :
    (k, n) ∈ ns := by
  induction ns with
  | nil => simp [lookupNode] at h
  | cons e rest ih =>
    obtain ⟨k', m⟩ := e
    by_cases hk : k' = k
    · simp [lookupNode, hk] at h
      simp [hk, h]
    · simp [lookupNode, hk] at h
      exact List.mem_cons_of_mem _ (ih h)

theorem lock_mem_chans (f : Factory) (k : String × String) (n : node) (l : Nat)
    (h : lookupNode k f.nodes = some n) (hl : n.lock = some l) : l ∈ f.chans := by
  unfold Factory.chans
  apply List.mem_append_right
  rw [List.mem_filterMap]
  exact ⟨(k, n), lookupNode_mem k n f.nodes h, hl⟩

/-- A loop over the watchers that finishes has sent `contents` once to every
watcher with a lock channel, in the order of the list, and nothing else. -/
theorem notifyWatches_sent (contents : String) (ws : List watch) :
    ∀ (sent : List (Nat × String)) (ready : List Nat) (sent' : List (Nat × String))
      (ready' : List Nat),
      notifyWatches contents ws sent ready = some (sent', ready') →
      sent' = sent ++ (ws.filterMap (fun w => w.lock)).map (fun ch => (ch, contents)) := by
  induction ws with
  | nil =>
    intro sent ready sent' ready' h
    simp only [notifyWatches, Option.some.injEq, Prod.mk.injEq] at h
    simp [h.1]
  | cons w rest ih =>
    intro sent ready sent' ready' h
    obtain ⟨wl⟩ := w
    cases wl with
    | none =>
      simp only [notifyWatches] at h
      simpa using ih sent ready sent' ready' h
    | some ch =>
      simp only [notifyWatches] at h
      by_cases hc : ch ∈ ready
      · simp only [hc, if_true] at h
        have := ih _ _ sent' ready' h
        simpa using this
      · simp [hc] at h

/-- The loop over the watchers finishes when the channels can accept the sends:
every lock channel of the list occurs in `ready` as often as in the list.  What
else was in `ready` (`extra`) is still there afterwards. -/
theorem notifyWatches_some (contents : String) (ws : List watch) (extra : List Nat) :
    ∀ (sent : List (Nat × String)) (ready : List Nat),
      List.Subperm (ws.filterMap (fun w => w.lock) ++ extra) ready →
      ∃ sent' ready', notifyWatches contents ws sent ready = some (sent', ready') ∧
        List.Subperm extra ready' := by
  induction ws with
  | nil =>
    intro sent ready h
    exact ⟨sent, ready, rfl, by simpa using h⟩
  | cons w rest ih =>
    intro sent ready h
    obtain ⟨wl⟩ := w
    cases wl with
    | none =>
      simp only [notifyWatches]
      exact ih sent ready (by simpa using h)
    | some ch =>
      have h' : List.Subperm (ch :: (rest.filterMap (fun w => w.lock) ++ extra)) ready := by
        simpa using h
      have hmem : ch ∈ ready := h'.subset (List.mem_cons_self _ _)
      have hrest : List.Subperm (rest.filterMap (fun w => w.lock) ++ extra) (ready.erase ch) := by
        have := h'.erase ch
        simpa using this
      simp only [notifyWatches, hmem, if_true]
      exact ih _ _ hrest

/-- The loop over the watchers finishes only when the channels can accept the
sends. -/
theorem notifyWatches_room (contents : String) (ws : List watch) :
    ∀ (sent : List (Nat × String)) (ready : List Nat),
      (notifyWatches contents ws sent ready).isSome →
      List.Subperm (ws.filterMap (fun w => w.lock)) ready := by
  induction ws with
  | nil =>
    intro sent ready _
    simp only [List.filterMap_nil]
    exact List.nil_subperm
  | cons w rest ih =>
    intro sent ready h
    obtain ⟨wl⟩ := w
    cases wl with
    | none =>
      simp only [notifyWatches] at h
      simpa using ih sent ready h
    | some ch =>
      simp only [notifyWatches] at h
      by_cases hc : ch ∈ ready
      · simp only [hc, if_true] at h
        have h1 := ih _ _ h
        have h2 : List.Subperm (ch :: rest.filterMap (fun w => w.lock))
            (ch :: ready.erase ch) := (List.subperm_cons ch).mpr h1
        have h3 : List.Perm (ch :: ready.erase ch) ready := (List.perm_cons_erase hc).symm
        simpa using h2.trans h3.subperm
      · simp [hc] at h

theorem lockBody_grant (c : Conn) (f : Factory) (dirPath contents : String) (n : node)
    (sent' : List (Nat × String)) (ready' : List Nat)
    (hf : f.err = none) (hn : f.nodeByPath c.cell dirPath = some n) (hl : n.lock = none)
    (hs : notifyWatches contents n.watches f.sent f.ready = some (sent', ready')) :
    c.lockBody f none dirPath contents
      = some (⟨f.err,
            storeNode (c.cell, dirPath) ⟨some f.makeChan, contents, n.watches⟩ f.nodes,
            f.closed, sent', ready'⟩,
          LockPc.returned (some ⟨c, dirPath⟩) none) := by
  simp [Conn.lockBody, hf, hn, hl, hs]

theorem lockBody_hangs (c : Conn) (f : Factory) (dirPath contents : String) (n : node)
    (hf : f.err = none) (hn : f.nodeByPath c.cell dirPath = some n) (hl : n.lock = none)
    (hs : notifyWatches contents n.watches f.sent f.ready = none) :
    c.lockBody f none dirPath contents = none := by
  simp [Conn.lockBody, hf, hn, hl, hs]

theorem lockBody_waiting (c : Conn) (f : Factory) (dirPath contents : String) (n : node)
    (l : Nat) (hf : f.err = none) (hn : f.nodeByPath c.cell dirPath = some n)
    (hl : n.lock = some l) :
    c.lockBody f none dirPath contents = some (f, LockPc.waiting l) := by
  simp [Conn.lockBody, hf, hn, hl]

theorem unlock_release (c : Conn) (f : Factory) (dirPath : String) (n : node) (l : Nat)
    (hn : f.nodeByPath c.cell dirPath = some n) (hl : n.lock = some l) (hopen : l ∉ f.closed) :
    c.unlock f dirPath
      = some (⟨f.err, storeNode (c.cell, dirPath) ⟨none, "", n.watches⟩ f.nodes,
                l :: f.closed, f.sent, f.ready⟩, none) := by
  simp [Conn.unlock, hn, hl, hopen]

theorem nodeByPath_isSome (f : Factory) (cell dirPath : String) (n : node)
    (hn : f.nodeByPath cell dirPath = some n) :
    (lookupNode (cell, dirPath) f.nodes).isSome := by
  unfold Factory.nodeByPath at hn
  simp [hn]

/-! ## What one step does -/

/-- A run of the loop body of `Lock` that gets to the `select` or to a `return`
either grants (the session is live, there is no fault, the node exists and is
unlocked, every send to a watcher completes) or leaves the store alone and
returns no descriptor. -/
theorem lockBody_cases (c : Conn) (f f' : Factory) (dialErr : Option Error)
    (dirPath contents : String) (pc : LockPc)
    (h : c.lockBody f dialErr dirPath contents = some (f', pc)) :
    (∃ n sent' ready', dialErr = none ∧ f.err = none ∧
        f.nodeByPath c.cell dirPath = some n ∧ n.lock = none ∧
        notifyWatches contents n.watches f.sent f.ready = some (sent', ready') ∧
        f' = ⟨f.err,
              storeNode (c.cell, dirPath) ⟨some f.makeChan, contents, n.watches⟩ f.nodes,
              f.closed, sent', ready'⟩ ∧
        pc = LockPc.returned (some ⟨c, dirPath⟩) none) ∨
    (f' = f ∧ ∀ ld err, pc ≠ LockPc.returned (some ld) err) := by
  unfold Conn.lockBody at h
  cases hd : dialErr with
  | some e =>
    simp [hd] at h
    right
    exact ⟨h.1.symm, by rw [← h.2]; simp⟩
  | none =>
    cases hf : f.err with
    | some e =>
      simp [hd, hf] at h
      right
      exact ⟨h.1.symm, by rw [← h.2]; simp⟩
    | none =>
      cases hn : f.nodeByPath c.cell dirPath with
      | none =>
        simp [hd, hf, hn] at h
        right
        exact ⟨h.1.symm, by rw [← h.2]; simp⟩
      | some n =>
        cases hl : n.lock with
        | some l =>
          simp [hd, hf, hn, hl] at h
          right
          exact ⟨h.1.symm, by rw [← h.2]; simp⟩
        | none =>
          cases hs : notifyWatches contents n.watches f.sent f.ready with
          | none => simp [hd, hf, hn, hl, hs] at h
          | some r =>
            obtain ⟨sent', ready'⟩ := r
            simp [hd, hf, hn, hl, hs] at h
            left
            exact ⟨n, sent', ready', rfl, rfl, rfl, hl, hs, h.1.symm, h.2.symm⟩

/-- A returning `unlock` either releases (the node exists and carries an open
signal) or leaves the store alone and returns an error. -/
theorem unlock_cases (c : Conn) (f f' : Factory) (dirPath : String) (r : Option Error)
    (h : c.unlock f dirPath = some (f', r)) :
    (∃ n l, f.nodeByPath c.cell dirPath = some n ∧ n.lock = some l ∧ l ∉ f.closed ∧
        r = none ∧
        f' = ⟨f.err, storeNode (c.cell, dirPath) ⟨none, "", n.watches⟩ f.nodes,
                l :: f.closed, f.sent, f.ready⟩) ∨
    (f' = f ∧ r ≠ none) := by
  unfold Conn.unlock at h
  cases hn : f.nodeByPath c.cell dirPath with
  | none =>
    simp [hn] at h
    right
    exact ⟨h.1.symm, by rw [← h.2]; simp⟩
  | some n =>
    cases hl : n.lock with
    | none =>
      simp [hn, hl] at h
      right
      exact ⟨h.1.symm, by rw [← h.2]; simp⟩
    | some l =>
      by_cases hc : l ∈ f.closed
      · simp [hn, hl, hc] at h
      · simp [hn, hl, hc] at h
        left
        exact ⟨n, l, rfl, hl, hc, h.2.symm, h.1.symm⟩

/-- The five kinds of step, with what each needs and what it yields. -/
theorem step_cases (s s' : System) (e : Event) (h : s.step e = some s') :
    (∃ c dirPath contents, e = Event.call c dirPath contents ∧
      s' = ⟨s.factory, s.calls ++ [⟨c, dirPath, contents, LockPc.top, none⟩]⟩) ∨
    (∃ i dialErr c dirPath contents u f' pc, e = Event.body i dialErr ∧
      s.calls[i]? = some ⟨c, dirPath, contents, LockPc.top, u⟩ ∧
      c.lockBody s.factory dialErr dirPath contents = some (f', pc) ∧
      s' = ⟨f', s.calls.set i ⟨c, dirPath, contents, pc, u⟩⟩) ∨
    (∃ i ctxErr k c dirPath contents l u pc, e = Event.select i ctxErr k ∧
      s.calls[i]? = some ⟨c, dirPath, contents, LockPc.waiting l, u⟩ ∧
      lockSelect s.factory l ctxErr dirPath k = some pc ∧
      s' = ⟨s.factory, s.calls.set i ⟨c, dirPath, contents, pc, u⟩⟩) ∨
    (∃ i c dirPath contents ld err f' r, e = Event.unlock i ∧
      s.calls[i]? = some ⟨c, dirPath, contents, LockPc.returned (some ld) err, none⟩ ∧
      ld.Unlock s.factory = some (f', r) ∧
      s' = ⟨f', s.calls.set i
              ⟨c, dirPath, contents, LockPc.returned (some ld) err, some r⟩⟩) ∨
    (∃ ch, e = Event.recv ch ∧
      s' = ⟨⟨s.factory.err, s.factory.nodes, s.factory.closed, s.factory.sent,
              ch :: s.factory.ready⟩, s.calls⟩) := by
  cases e with
  | call c dirPath contents =>
    left
    simp only [System.step, Option.some.injEq] at h
    exact ⟨c, dirPath, contents, rfl, h.symm⟩
  | body i dialErr =>
    right; left
    simp only [System.step] at h
    split at h
    · rename_i c dirPath contents u hi
      split at h
      · rename_i f' pc hb
        simp at h
        exact ⟨i, dialErr, c, dirPath, contents, u, f', pc, rfl, hi, hb, h.symm⟩
      · cases h
    · cases h
  | select i ctxErr k =>
    right; right; left
    simp only [System.step] at h
    split at h
    · rename_i c dirPath contents l u hi
      split at h
      · rename_i pc hpc
        simp at h
        exact ⟨i, ctxErr, k, c, dirPath, contents, l, u, pc, rfl, hi, hpc, h.symm⟩
      · cases h
    · cases h
  | recv ch =>
    right; right; right; right
    simp only [System.step, Option.some.injEq] at h
    exact ⟨ch, rfl, h.symm⟩
  | unlock i =>
    right; right; right; left
    simp only [System.step] at h
    split at h
    · rename_i c dirPath contents ld err hi
      split at h
      · rename_i f' r hu
        simp at h
        exact ⟨i, c, dirPath, contents, ld, err, f', r, rfl, hi, hu, h.symm⟩
      · cases h
    · cases h

/-- A `select` never yields a descriptor. -/
theorem lockSelect_no_descriptor (f : Factory) (l : Nat) (ctxErr : Option Error)
    (dirPath : String) (k : SelectCase) (pc : LockPc)
    (h : lockSelect f l ctxErr dirPath k = some pc) :
    ∀ ld err, pc ≠ LockPc.returned (some ld) err := by
  intro ld err hpc
  unfold lockSelect at h
  split at h
  · cases k <;> simp at h <;> rw [← h] at hpc <;> cases hpc
  · cases h

/-! ## Grant, release and their failure cases -/

/-- C2, as stated, fails when a watcher cannot take the notification: on
`storeFull` the session is live, there is no fault and the node exists and is
unlocked, but the send to the first watcher (channel 7) blocks, so the loop body
of `Lock` does not return. -/
theorem Lock_blocks_on_full_watcher :
    storeFull.err = none ∧
    storeFull.nodeByPath connA.cell "/keyspace1/shard0"
      = some ⟨none, "", [⟨some 7⟩, ⟨none⟩, ⟨some 8⟩]⟩ ∧
    connA.lockBody storeFull none "/keyspace1/shard0" "A-election" = none := by
  decide

/-- C2, amended: with a live session (dial returns nil), no store fault and an
existing unlocked node at `dirPath`: when the lock channels of the node's
watchers can accept one send each, the loop body of `Lock` returns a nil error
and the descriptor `(c, dirPath)`, and afterwards the node carries a lock signal
that is not closed and its lock contents are `contents`; when they cannot, the
loop body does not return. -/
theorem Lock_grant_postcondition (c : Conn) (f : Factory) (dirPath contents : String)
    (n : node) (hf : f.err = none) (hn : f.nodeByPath c.cell dirPath = some n)
    (hl : n.lock = none) :
    (List.Subperm n.lockWatchers f.ready →
      ∃ f', c.lockBody f none dirPath contents
          = some (f', LockPc.returned (some ⟨c, dirPath⟩) none) ∧
        ∃ n' l, f'.nodeByPath c.cell dirPath = some n' ∧
          n'.lock = some l ∧ l ∉ f'.closed ∧ n'.lockContents = contents) ∧
    (¬ List.Subperm n.lockWatchers f.ready → c.lockBody f none dirPath contents = none) := by
  have hsome := nodeByPath_isSome f c.cell dirPath n hn
  constructor
  · intro hroom
    obtain ⟨sent', ready', hs, _⟩ :=
      notifyWatches_some contents n.watches [] f.sent f.ready (by simpa using hroom)
    refine ⟨_, lockBody_grant c f dirPath contents n sent' ready' hf hn hl hs,
      ⟨some f.makeChan, contents, n.watches⟩, f.makeChan, ?_, rfl, ?_, rfl⟩
    · simp [Factory.nodeByPath, lookupNode_storeNode_same _ _ _ hsome]
    · exact makeChan_not_closed f
  · intro hroom
    apply lockBody_hangs c f dirPath contents n hf hn hl
    cases hs : notifyWatches contents n.watches f.sent f.ready with
    | none => rfl
    | some r =>
      exact absurd (notifyWatches_room contents n.watches f.sent f.ready (by simp [hs])) hroom

theorem Lock_grant_postcondition_witness :
    storeFree.err = none ∧
    storeFree.nodeByPath connA.cell "/keyspace1/shard0"
      = some ⟨none, "", [⟨some 7⟩, ⟨none⟩, ⟨some 8⟩]⟩ ∧
    ∃ f', connA.lockBody storeFree none "/keyspace1/shard0" "A-election"
        = some (f', LockPc.returned (some ⟨connA, "/keyspace1/shard0"⟩) none) ∧
      ∃ n' l, f'.nodeByPath connA.cell "/keyspace1/shard0" = some n' ∧
        n'.lock = some l ∧ l ∉ f'.closed ∧ n'.lockContents = "A-election" :=
  ⟨by decide, by decide,
    (Lock_grant_postcondition connA storeFree "/keyspace1/shard0" "A-election"
      ⟨none, "", [⟨some 7⟩, ⟨none⟩, ⟨some 8⟩]⟩ (by decide) (by decide) (by decide)).1
      (by decide)⟩

/-- C3: when the node at the descriptor's path exists and carries a lock signal
`l` that is not closed, `Unlock` returns nil; afterwards `l` is closed, so the
case `<-l` of every `select` blocked on `l` can proceed (the waiter goes back to
the head of the loop), and the node has no lock signal and empty lock contents. -/
theorem Unlock_release_postcondition (ld : memoryTopoLockDescriptor) (f : Factory)
    (n : node) (l : Nat) (hn : f.nodeByPath ld.c.cell ld.dirPath = some n)
    (hl : n.lock = some l) (hopen : l ∉ f.closed) :
    ∃ f', ld.Unlock f = some (f', none) ∧ l ∈ f'.closed ∧
      (∀ ctxErr p, lockSelect f' l ctxErr p SelectCase.signal = some LockPc.top) ∧
      ∃ n', f'.nodeByPath ld.c.cell ld.dirPath = some n' ∧ n'.lock = none ∧
        n'.lockContents = "" := by
  have hsome := nodeByPath_isSome f ld.c.cell ld.dirPath n hn
  refine ⟨_, unlock_release ld.c f ld.dirPath n l hn hl hopen,
    by simp, ?_, ⟨none, "", n.watches⟩, ?_, rfl, rfl⟩
  · intro ctxErr p
    simp [lockSelect, selectReady]
  · simp [Factory.nodeByPath, lookupNode_storeNode_same _ _ _ hsome]

theorem Unlock_release_postcondition_witness :
    storeHeld.nodeByPath descA.c.cell descA.dirPath
      = some ⟨some 1, "A-election", [⟨some 7⟩, ⟨none⟩, ⟨some 8⟩]⟩ ∧
    1 ∉ storeHeld.closed ∧
    ∃ f', descA.Unlock storeHeld = some (f', none) ∧ 1 ∈ f'.closed ∧
      (∀ ctxErr p, lockSelect f' 1 ctxErr p SelectCase.signal = some LockPc.top) ∧
      ∃ n', f'.nodeByPath descA.c.cell descA.dirPath = some n' ∧ n'.lock = none ∧
        n'.lockContents = "" :=
  ⟨by decide, by decide,
    Unlock_release_postcondition descA storeHeld
      ⟨some 1, "A-election", [⟨some 7⟩, ⟨none⟩, ⟨some 8⟩]⟩ 1 (by decide) rfl (by decide)⟩

/-- C4: `Unlock` returns nil exactly when the node at the descriptor's path
exists and carries a lock signal that is not closed; when the node is absent it
returns the NoNode error carrying the path; when the node exists without a lock
signal it returns the `fmt.Errorf` value "node <path> is not locked", which is
no topo error; in both failure cases the store is unchanged. -/
theorem Unlock_fails_iff (ld : memoryTopoLockDescriptor) (f : Factory) :
    ((∃ f', ld.Unlock f = some (f', none)) ↔
      ∃ n l, f.nodeByPath ld.c.cell ld.dirPath = some n ∧ n.lock = some l ∧ l ∉ f.closed) ∧
    (f.nodeByPath ld.c.cell ld.dirPath = none →
      ld.Unlock f = some (f, some (Error.topo ErrorCode.NoNode ld.dirPath))) ∧
    (∀ n, f.nodeByPath ld.c.cell ld.dirPath = some n → n.lock = none →
      ld.Unlock f = some (f, some (Error.errorf ("node " ++ ld.dirPath ++ " is not locked"))) ∧
      ∀ code p, Error.errorf ("node " ++ ld.dirPath ++ " is not locked") ≠ Error.topo code p) := by
  refine ⟨⟨?_, ?_⟩, ?_, ?_⟩
  · rintro ⟨f', h⟩
    unfold memoryTopoLockDescriptor.Unlock Conn.unlock at h
    cases hn : f.nodeByPath ld.c.cell ld.dirPath with
    | none => simp [hn] at h
    | some n =>
      cases hl : n.lock with
      | none => simp [hn, hl] at h
      | some l =>
        by_cases hc : l ∈ f.closed
        · simp [hn, hl, hc] at h
        · exact ⟨n, l, rfl, hl, hc⟩
  · rintro ⟨n, l, hn, hl, hc⟩
    exact ⟨_, unlock_release ld.c f ld.dirPath n l hn hl hc⟩
  · intro hn
    simp [memoryTopoLockDescriptor.Unlock, Conn.unlock, hn, NewError]
  · intro n hn hl
    refine ⟨by simp [memoryTopoLockDescriptor.Unlock, Conn.unlock, hn, hl], ?_⟩
    intro code p h
    cases h

theorem Unlock_fails_iff_witness :
    descA.Unlock storeFree
      = some (storeFree, some (Error.errorf ("node " ++ descA.dirPath ++ " is not locked"))) :=
  ((Unlock_fails_iff descA storeFree).2.2 ⟨none, "", [⟨some 7⟩, ⟨none⟩, ⟨some 8⟩]⟩
    (by decide) rfl).1

/-- C5: with a live session and no store fault, when `dirPath` resolves to no
node in the connection's cell, the first run of the loop body of `Lock` returns
a nil descriptor and the NoNode error carrying `dirPath` (it neither blocks nor
loops), and the store is unchanged. -/
theorem Lock_missing_node (c : Conn) (f : Factory) (dirPath contents : String)
    (hf : f.err = none) (hn : f.nodeByPath c.cell dirPath = none) :
    c.lockBody f none dirPath contents
      = some (f, LockPc.returned none (some (Error.topo ErrorCode.NoNode dirPath))) := by
  simp [Conn.lockBody, hf, hn, NewError]

theorem Lock_missing_node_witness :
    storeFree.err = none ∧ storeFree.nodeByPath connA.cell "/nowhere" = none ∧
    connA.lockBody storeFree none "/nowhere" "A-election"
      = some (storeFree,
          LockPc.returned none (some (Error.topo ErrorCode.NoNode "/nowhere"))) :=
  ⟨by decide, by decide,
    Lock_missing_node connA storeFree "/nowhere" "A-election" (by decide) (by decide)⟩

/-- C9: `convertError(err, nodePath)` is the Interrupted topo error carrying
`nodePath` when `err` is `context.Canceled`, the Timeout topo error carrying
`nodePath` when `err` is `context.DeadlineExceeded`, and `err` itself for every
other value, nil included. -/
theorem convertError_spec (err : Option Error) (nodePath : String) :
    convertError err nodePath =
      if err = some Error.Canceled then some (Error.topo ErrorCode.Interrupted nodePath)
      else if err = some Error.DeadlineExceeded then
        some (Error.topo ErrorCode.Timeout nodePath)
      else err := by
  unfold convertError
  split
  · simp [NewError]
  · simp [NewError]
  · rename_i h1 h2
    have h1' : ¬ err = some Error.Canceled := fun h => h1 h
    have h2' : ¬ err = some Error.DeadlineExceeded := fun h => h2 h
    simp [h1', h2']

/-! ## Store fault -/

/-- C10, as stated, fails for `Unlock`: on a store whose fault value is set and
whose node is locked, `Unlock` returns nil, not the fault, and releases the
lock. -/
theorem Unlock_ignores_fault :
    storeFaulty.err = some (Error.other 5) ∧
    descA.Unlock storeFaulty
      = some (⟨some (Error.other 5),
          [(("zone1", "/keyspace1/shard0"), ⟨none, "", [⟨some 7⟩, ⟨none⟩, ⟨some 8⟩]⟩)],
          [1], [(7, "A-election"), (8, "A-election")], [7, 8, 7, 8]⟩, none) := by
  decide

/-- C10, amended: on a store whose fault value is `e`, the loop body of `Lock`
(after a successful dial) returns a nil descriptor and exactly `e` for every
connection, path and contents, and leaves the store unchanged; `Unlock` does not
read the fault value: its result is its result on the same store without the
fault, with the fault value carried over. -/
theorem fault_fails_Lock_not_Unlock (f : Factory) (e : Error) (hf : f.err = some e) :
    (∀ (c : Conn) (dirPath contents : String),
      c.lockBody f none dirPath contents = some (f, LockPc.returned none (some e))) ∧
    (∀ ld : memoryTopoLockDescriptor,
      ld.Unlock f
        = (ld.Unlock ⟨none, f.nodes, f.closed, f.sent, f.ready⟩).map
            (fun r => (⟨f.err, r.1.nodes, r.1.closed, r.1.sent, r.1.ready⟩, r.2))) := by
  refine ⟨fun c dirPath contents => by simp [Conn.lockBody, hf], fun ld => ?_⟩
  obtain ⟨fe, ns, cl, st, rd⟩ := f
  simp only [memoryTopoLockDescriptor.Unlock, Conn.unlock, Factory.nodeByPath]
  cases lookupNode (ld.c.cell, ld.dirPath) ns with
  | none => simp
  | some n =>
    rcases hl : n.lock with _ | l
    · simp [hl]
    · by_cases hc : l ∈ cl
      · simp [hl, hc]
      · simp [hl, hc]

theorem fault_fails_Lock_not_Unlock_witness :
    storeFaulty.err = some (Error.other 5) ∧
    connB.lockBody storeFaulty none "/keyspace1/shard0" "B-election"
      = some (storeFaulty, LockPc.returned none (some (Error.other 5))) :=
  ⟨by decide,
    (fault_fails_Lock_not_Unlock storeFaulty (Error.other 5) (by decide)).1 connB
      "/keyspace1/shard0" "B-election"⟩

/-! ## A descriptor released twice -/

/-- C6, as stated, fails when the node has been locked again: `connA` locks
and unlocks, `connB` locks, and the second `Unlock` on the descriptor of `connA`
returns nil and leaves the node unlocked, so the lock of `connB` is gone. -/
theorem second_Unlock_releases_other_lock :
    ∃ f1 f2 f3 f4,
      connA.lockBody storeFree none "/keyspace1/shard0" "A-election"
        = some (f1, LockPc.returned (some descA) none) ∧
      descA.Unlock f1 = some (f2, none) ∧
      connB.lockBody f2 none "/keyspace1/shard0" "B-election"
        = some (f3, LockPc.returned (some ⟨connB, "/keyspace1/shard0"⟩) none) ∧
      f3.nodeByPath "zone1" "/keyspace1/shard0"
        = some ⟨some 2, "B-election", [⟨some 7⟩, ⟨none⟩, ⟨some 8⟩]⟩ ∧
      descA.Unlock f3 = some (f4, none) ∧
      f4.nodeByPath "zone1" "/keyspace1/shard0"
        = some ⟨none, "", [⟨some 7⟩, ⟨none⟩, ⟨some 8⟩]⟩ := by
  refine ⟨_, _, _, _, rfl, rfl, rfl, ?_, rfl, ?_⟩ <;> decide

/-- C6, amended: after a successful `Unlock` on a descriptor the node is
unlocked, and a second `Unlock` on the same descriptor returns the "not locked"
error and changes nothing whenever the node is unlocked at that moment; when
another caller has meanwhile been granted the lock on that node (which any
caller is whose watchers can take the notification), the second `Unlock`
returns nil and releases that caller's lock. -/
theorem released_descriptor_second_Unlock (ld : memoryTopoLockDescriptor) (f f' : Factory)
    (h : ld.Unlock f = some (f', none)) :
    (∃ n, f'.nodeByPath ld.c.cell ld.dirPath = some n ∧ n.lock = none) ∧
    (∀ (g : Factory) (n : node), g.nodeByPath ld.c.cell ld.dirPath = some n → n.lock = none →
      ld.Unlock g
        = some (g, some (Error.errorf ("node " ++ ld.dirPath ++ " is not locked")))) ∧
    (∀ (c' : Conn) (contents : String) (f2 : Factory) (ld' : memoryTopoLockDescriptor)
        (e : Option Error), c'.cell = ld.c.cell →
      c'.lockBody f' none ld.dirPath contents = some (f2, LockPc.returned (some ld') e) →
      ld' = ⟨c', ld.dirPath⟩ ∧ e = none ∧
      ∃ f3, ld.Unlock f2 = some (f3, none) ∧
        ∃ n, f3.nodeByPath ld.c.cell ld.dirPath = some n ∧ n.lock = none) ∧
    (∀ (c' : Conn) (contents : String) (n : node), c'.cell = ld.c.cell → f'.err = none →
      f'.nodeByPath ld.c.cell ld.dirPath = some n → List.Subperm n.lockWatchers f'.ready →
      ∃ f2 f3, c'.lockBody f' none ld.dirPath contents
          = some (f2, LockPc.returned (some ⟨c', ld.dirPath⟩) none) ∧
        ld.Unlock f2 = some (f3, none) ∧
        ∃ n, f3.nodeByPath ld.c.cell ld.dirPath = some n ∧ n.lock = none) := by
  have hfirst : ∃ n, f'.nodeByPath ld.c.cell ld.dirPath = some n ∧ n.lock = none := by
    rcases unlock_cases ld.c f f' ld.dirPath none h with
      ⟨n, l, hn, _, _, _, rfl⟩ | ⟨_, hne⟩
    · exact ⟨⟨none, "", n.watches⟩, by
        simp [Factory.nodeByPath,
          lookupNode_storeNode_same _ _ _ (nodeByPath_isSome f _ _ n hn)], rfl⟩
    · exact absurd rfl hne
  have hrelock : ∀ (c' : Conn) (contents : String) (f2 : Factory)
      (ld' : memoryTopoLockDescriptor) (e : Option Error), c'.cell = ld.c.cell →
      c'.lockBody f' none ld.dirPath contents = some (f2, LockPc.returned (some ld') e) →
      ld' = ⟨c', ld.dirPath⟩ ∧ e = none ∧
      ∃ f3, ld.Unlock f2 = some (f3, none) ∧
        ∃ n, f3.nodeByPath ld.c.cell ld.dirPath = some n ∧ n.lock = none := by
    intro c' contents f2 ld' e hcell hb
    rcases lockBody_cases c' f' f2 none ld.dirPath contents _ hb with
      ⟨n, sent', ready', _, _, hn, _, _, rfl, hpc⟩ | ⟨_, hno⟩
    · rw [hcell] at hn
      have hsome := nodeByPath_isSome f' _ _ n hn
      have hu := unlock_release ld.c
        ⟨f'.err,
          storeNode (c'.cell, ld.dirPath) ⟨some f'.makeChan, contents, n.watches⟩ f'.nodes,
          f'.closed, sent', ready'⟩
        ld.dirPath ⟨some f'.makeChan, contents, n.watches⟩ f'.makeChan
        (by simp [Factory.nodeByPath, hcell, lookupNode_storeNode_same _ _ _ hsome]) rfl
        (makeChan_not_closed f')
      have hsome2 : (lookupNode (ld.c.cell, ld.dirPath)
          (storeNode (c'.cell, ld.dirPath) ⟨some f'.makeChan, contents, n.watches⟩
            f'.nodes)).isSome := by
        simp [hcell, lookupNode_storeNode_same _ _ _ hsome]
      cases hpc
      exact ⟨rfl, rfl, _, hu, ⟨none, "", n.watches⟩, by
        simp [Factory.nodeByPath, lookupNode_storeNode_same _ _ _ hsome2], rfl⟩
    · exact absurd rfl (hno ld' e)
  refine ⟨hfirst, ?_, hrelock, ?_⟩
  · intro g n hn hl
    simp [memoryTopoLockDescriptor.Unlock, Conn.unlock, hn, hl]
  · intro c' contents n hcell herr hn hroom
    obtain ⟨n0, hn0, hl0⟩ := hfirst
    rw [hn] at hn0
    cases hn0
    have hn' : f'.nodeByPath c'.cell ld.dirPath = some n := by rw [hcell]; exact hn
    obtain ⟨sent', ready', hs, _⟩ :=
      notifyWatches_some contents n.watches [] f'.sent f'.ready (by simpa using hroom)
    have hb := lockBody_grant c' f' ld.dirPath contents n sent' ready' herr hn' hl0 hs
    obtain ⟨_, _, f3, hu, hn3⟩ := hrelock c' contents _ _ _ hcell hb
    exact ⟨_, f3, hb, hu, hn3⟩

theorem released_descriptor_second_Unlock_witness :
    descA.Unlock storeHeld
      = some (⟨none, [(("zone1", "/keyspace1/shard0"), ⟨none, "", [⟨some 7⟩, ⟨none⟩, ⟨some 8⟩]⟩)],
          [1], [(7, "A-election"), (8, "A-election")], [7, 8, 7, 8]⟩, none) ∧
    ∃ n, Factory.nodeByPath
        ⟨none, [(("zone1", "/keyspace1/shard0"), ⟨none, "", [⟨some 7⟩, ⟨none⟩, ⟨some 8⟩]⟩)],
          [1], [(7, "A-election"), (8, "A-election")], [7, 8, 7, 8]⟩
        descA.c.cell descA.dirPath = some n ∧
      n.lock = none :=
  ⟨by decide, (released_descriptor_second_Unlock descA storeHeld _ (by decide)).1⟩

/-! ## Cancellation while waiting -/

/-- C8: let call `i` be blocked in the `select` on the signal `l` of the node at
`dirPath`, which is locked (`l` is not closed).  When its context is cancelled
the call returns a nil descriptor and the Interrupted error carrying `dirPath`;
when its deadline has elapsed it returns the Timeout error carrying `dirPath`.
In both cases the store is unchanged (so the node still carries `l` and its
contents, and every other node is as before) and every other call is as before;
and the case `<-l` cannot proceed, so the wait ends in no other way. -/
theorem Lock_cancelled_while_waiting (s : System) (i : Nat) (c : Conn)
    (dirPath contents : String) (l : Nat) (u : Option (Option Error)) (n : node)
    (hi : s.calls[i]? = some ⟨c, dirPath, contents, LockPc.waiting l, u⟩)
    (hn : s.factory.nodeByPath c.cell dirPath = some n) (hl : n.lock = some l)
    (hopen : l ∉ s.factory.closed) :
    (∃ s', s.step (Event.select i (some Error.Canceled) SelectCase.done) = some s' ∧
      s'.calls[i]? = some ⟨c, dirPath, contents,
        LockPc.returned none (some (Error.topo ErrorCode.Interrupted dirPath)), u⟩ ∧
      s'.factory = s.factory ∧
      (∃ n', s'.factory.nodeByPath c.cell dirPath = some n' ∧ n'.lock = some l ∧
        n'.lockContents = n.lockContents) ∧
      ∀ j, j ≠ i → s'.calls[j]? = s.calls[j]?) ∧
    (∃ s', s.step (Event.select i (some Error.DeadlineExceeded) SelectCase.done) = some s' ∧
      s'.calls[i]? = some ⟨c, dirPath, contents,
        LockPc.returned none (some (Error.topo ErrorCode.Timeout dirPath)), u⟩ ∧
      s'.factory = s.factory ∧
      (∃ n', s'.factory.nodeByPath c.cell dirPath = some n' ∧ n'.lock = some l ∧
        n'.lockContents = n.lockContents) ∧
      ∀ j, j ≠ i → s'.calls[j]? = s.calls[j]?) ∧
    (∀ ctxErr, s.step (Event.select i ctxErr SelectCase.signal) = none) := by
  have hlt : i < s.calls.length := by
    rcases Nat.lt_or_ge i s.calls.length with h | h
    · exact h
    · rw [List.getElem?_eq_none h] at hi
      cases hi
  refine ⟨⟨⟨s.factory, s.calls.set i ⟨c, dirPath, contents,
        LockPc.returned none (some (Error.topo ErrorCode.Interrupted dirPath)), u⟩⟩,
      by simp [System.step, hi, lockSelect, selectReady, convertError, NewError],
      by simp [hlt], rfl, ⟨n, hn, hl, rfl⟩, ?_⟩,
    ⟨⟨s.factory, s.calls.set i ⟨c, dirPath, contents,
        LockPc.returned none (some (Error.topo ErrorCode.Timeout dirPath)), u⟩⟩,
      by simp [System.step, hi, lockSelect, selectReady, convertError, NewError],
      by simp [hlt], rfl, ⟨n, hn, hl, rfl⟩, ?_⟩, ?_⟩
  · intro j hj
    simp [List.getElem?_set, Ne.symm hj]
  · intro j hj
    simp [List.getElem?_set, Ne.symm hj]
  · intro ctxErr
    simp [System.step, hi, lockSelect, selectReady, hopen]

theorem Lock_cancelled_while_waiting_witness :
    systemContended.calls[1]?
      = some ⟨connB, "/keyspace1/shard0", "B-election", LockPc.waiting 1, none⟩ ∧
    1 ∉ systemContended.factory.closed ∧
    ∃ s', systemContended.step (Event.select 1 (some Error.Canceled) SelectCase.done)
        = some s' ∧
      s'.calls[1]? = some ⟨connB, "/keyspace1/shard0", "B-election",
        LockPc.returned none (some (Error.topo ErrorCode.Interrupted "/keyspace1/shard0")),
        none⟩ ∧
      s'.factory = systemContended.factory ∧
      (∃ n', s'.factory.nodeByPath connB.cell "/keyspace1/shard0" = some n' ∧
        n'.lock = some 1 ∧ n'.lockContents = "A-election") ∧
      ∀ j, j ≠ 1 → s'.calls[j]? = systemContended.calls[j]? :=
  ⟨by decide, by decide,
    (Lock_cancelled_while_waiting systemContended 1 connB "/keyspace1/shard0" "B-election" 1
      none ⟨some 1, "A-election", [⟨some 7⟩, ⟨none⟩, ⟨some 8⟩]⟩
      (by decide) (by decide) rfl (by decide)).1⟩

/-! ## Watcher notifications -/

theorem lookupNode_storeNode (k0 k : String × String) (n' : node)
    (ns : List ((String × String) × node)) (h : (lookupNode k0 ns).isSome) :
    lookupNode k (storeNode k0 n' ns) = if k = k0 then some n' else lookupNode k ns := by
  by_cases hk : k = k0
  · subst hk
    simp [lookupNode_storeNode_same _ _ _ h]
  · simp [hk, lookupNode_storeNode_other _ _ _ _ hk]

theorem countP_set_add (p : LockCall → Bool) (calls : List LockCall) (i : Nat)
    (old new : LockCall) (hi : calls[i]? = some old) :
    (calls.set i new).countP p + (if p old then 1 else 0)
      = calls.countP p + (if p new then 1 else 0) := by
  induction calls generalizing i with
  | nil => simp at hi
  | cons x l ih =>
    cases i with
    | zero =>
      simp at hi
      subst hi
      simp only [List.set_cons_zero, List.countP_cons]
      omega
    | succ i =>
      simp at hi
      have := ih i hi
      simp only [List.set_cons_succ, List.countP_cons]
      omega

theorem holds_eq_false (k : String × String) (lc : LockCall)
    (h : ∀ ld err, lc.pc ≠ LockPc.returned (some ld) err) : lc.holds k = false := by
  obtain ⟨c, dirPath, contents, pc, u⟩ := lc
  cases pc with
  | top => simp [LockCall.holds]
  | waiting l => simp [LockCall.holds]
  | returned ld err =>
    cases ld with
    | none => simp [LockCall.holds]
    | some d => exact absurd rfl (h d err)

theorem holders_set_same (s : System) (i : Nat) (old new : LockCall) (f : Factory)
    (k : String × String) (hi : s.calls[i]? = some old) (h : new.holds k = old.holds k) :
    System.holders ⟨f, s.calls.set i new⟩ k = s.holders k := by
  have := countP_set_add (LockCall.holds k) s.calls i old new hi
  rw [h] at this
  unfold System.holders
  simp only at this ⊢
  omega

/-- A step that leaves the store alone and does not change which node a call
holds keeps the invariant. -/
theorem Inv_same_factory (s : System) (i : Nat) (old new : LockCall) (hinv : s.Inv)
    (hi : s.calls[i]? = some old) (h : ∀ k, new.holds k = old.holds k) :
    System.Inv ⟨s.factory, s.calls.set i new⟩ := by
  refine ⟨fun k => ?_, hinv.2⟩
  rw [holders_set_same s i old new s.factory k hi (h k)]
  exact hinv.1 k

/-- A grant keeps the invariant. -/
theorem Inv_grant (s : System) (i : Nat) (c : Conn) (dirPath contents : String)
    (u : Option (Option Error)) (n : node) (sent' : List (Nat × String)) (ready' : List Nat)
    (hinv : s.Inv)
    (hi : s.calls[i]? = some ⟨c, dirPath, contents, LockPc.top, u⟩)
    (hn : lookupNode (c.cell, dirPath) s.factory.nodes = some n) (hl : n.lock = none) :
    System.Inv
      ⟨⟨s.factory.err,
          storeNode (c.cell, dirPath) ⟨some s.factory.makeChan, contents, n.watches⟩
            s.factory.nodes,
          s.factory.closed, sent', ready'⟩,
        s.calls.set i
          ⟨c, dirPath, contents, LockPc.returned (some ⟨c, dirPath⟩) none, u⟩⟩ := by
  obtain ⟨hheld, hinj⟩ := hinv
  have hsome : (lookupNode (c.cell, dirPath) s.factory.nodes).isSome := by simp [hn]
  have h0 : s.holders (c.cell, dirPath) = 0 := by
    rcases hheld (c.cell, dirPath) with h0 | ⟨_, n1, l1, hn1, hl1, _⟩
    · exact h0
    · rw [hn] at hn1
      cases hn1
      rw [hl] at hl1
      cases hl1
  have hcount := fun k => countP_set_add (LockCall.holds k) s.calls i
    ⟨c, dirPath, contents, LockPc.top, u⟩
    ⟨c, dirPath, contents, LockPc.returned (some ⟨c, dirPath⟩) none, u⟩ hi
  have hold : ∀ k, LockCall.holds k ⟨c, dirPath, contents, LockPc.top, u⟩ = false :=
    fun k => by simp [LockCall.holds]
  refine ⟨fun k => ?_, ?_⟩
  · have hc := hcount k
    rw [hold k] at hc
    simp only [System.holders] at h0 ⊢
    by_cases hk : k = (c.cell, dirPath)
    · subst hk
      rw [h0] at hc
      by_cases hnew : LockCall.holds (c.cell, dirPath)
          ⟨c, dirPath, contents, LockPc.returned (some ⟨c, dirPath⟩) none, u⟩ = true
      · right
        simp only [hnew] at hc
        refine ⟨by simpa using hc, ⟨some s.factory.makeChan, contents, n.watches⟩,
          s.factory.makeChan, ?_, rfl, makeChan_not_closed s.factory⟩
        simp [lookupNode_storeNode_same _ _ _ hsome]
      · left
        simp only [hnew] at hc
        simpa using hc
    · have hnew : LockCall.holds k
          ⟨c, dirPath, contents, LockPc.returned (some ⟨c, dirPath⟩) none, u⟩ = false := by
        have hk' : ¬ (c.cell, dirPath) = k := fun h => hk h.symm
        rcases u with _ | _ | _ <;> simp [LockCall.holds, hk']
      rw [hnew] at hc
      simp only [Bool.false_eq_true, if_false, Nat.add_zero] at hc
      rw [hc]
      simp only [lookupNode_storeNode_other _ _ _ _ hk]
      exact hheld k
  · intro k1 k2 n1 n2 l h1 h2 hl1 hl2
    simp only [lookupNode_storeNode _ _ _ _ hsome] at h1 h2
    by_cases hk1 : k1 = (c.cell, dirPath)
    · by_cases hk2 : k2 = (c.cell, dirPath)
      · rw [hk1, hk2]
      · simp only [hk1, if_true, Option.some.injEq] at h1
        simp only [hk2, if_false] at h2
        subst h1
        simp only [Option.some.injEq] at hl1
        subst hl1
        exact absurd (lock_mem_chans s.factory k2 n2 _ h2 hl2) (makeChan_not_mem_chans _)
    · by_cases hk2 : k2 = (c.cell, dirPath)
      · simp only [hk2, if_true, Option.some.injEq] at h2
        simp only [hk1, if_false] at h1
        subst h2
        simp only [Option.some.injEq] at hl2
        subst hl2
        exact absurd (lock_mem_chans s.factory k1 n1 _ h1 hl1) (makeChan_not_mem_chans _)
      · simp only [hk1, if_false] at h1
        simp only [hk2, if_false] at h2
        exact hinj k1 k2 n1 n2 l h1 h2 hl1 hl2

/-- A release through a descriptor that is granted and not yet released keeps
the invariant. -/
theorem Inv_release (s : System) (i : Nat) (c : Conn) (dirPath contents : String)
    (ld : memoryTopoLockDescriptor) (err : Option Error) (n : node) (l : Nat) (hinv : s.Inv)
    (hi : s.calls[i]? = some ⟨c, dirPath, contents, LockPc.returned (some ld) err, none⟩)
    (hn : lookupNode (ld.c.cell, ld.dirPath) s.factory.nodes = some n)
    (hl : n.lock = some l) :
    System.Inv
      ⟨⟨s.factory.err,
          storeNode (ld.c.cell, ld.dirPath) ⟨none, "", n.watches⟩ s.factory.nodes,
          l :: s.factory.closed, s.factory.sent, s.factory.ready⟩,
        s.calls.set i
          ⟨c, dirPath, contents, LockPc.returned (some ld) err, some none⟩⟩ := by
  obtain ⟨hheld, hinj⟩ := hinv
  have hsome : (lookupNode (ld.c.cell, ld.dirPath) s.factory.nodes).isSome := by simp [hn]
  have hcount := fun k => countP_set_add (LockCall.holds k) s.calls i
    ⟨c, dirPath, contents, LockPc.returned (some ld) err, none⟩
    ⟨c, dirPath, contents, LockPc.returned (some ld) err, some none⟩ hi
  have hnew : ∀ k, LockCall.holds k
      ⟨c, dirPath, contents, LockPc.returned (some ld) err, some none⟩ = false :=
    fun k => by simp [LockCall.holds]
  refine ⟨fun k => ?_, ?_⟩
  · have hc := hcount k
    rw [hnew k] at hc
    simp only [System.holders] at hheld ⊢
    by_cases hk : k = (ld.c.cell, ld.dirPath)
    · subst hk
      have hold : LockCall.holds (ld.c.cell, ld.dirPath)
          ⟨c, dirPath, contents, LockPc.returned (some ld) err, none⟩ = true := by
        simp [LockCall.holds]
      rw [hold] at hc
      left
      rcases hheld (ld.c.cell, ld.dirPath) with h0 | ⟨h1, _⟩
      · simp only [h0, if_true, Bool.false_eq_true, if_false] at hc
        omega
      · simp only [h1, if_true, Bool.false_eq_true, if_false] at hc
        omega
    · have hold : LockCall.holds k
          ⟨c, dirPath, contents, LockPc.returned (some ld) err, none⟩ = false := by
        have hk' : ¬ (ld.c.cell, ld.dirPath) = k := fun h => hk h.symm
        simp [LockCall.holds, hk']
      rw [hold] at hc
      simp only [Bool.false_eq_true, if_false, Nat.add_zero] at hc
      rw [hc]
      simp only [lookupNode_storeNode_other _ _ _ _ hk]
      rcases hheld k with h0 | ⟨h1, n1, l1, hn1, hl1, hopen1⟩
      · exact Or.inl h0
      · refine Or.inr ⟨h1, n1, l1, hn1, hl1, ?_⟩
        intro hmem
        rcases List.mem_cons.mp hmem with heq | hmem'
        · subst heq
          exact hk (hinj k (ld.c.cell, ld.dirPath) n1 n l1 hn1 hn hl1 hl)
        · exact hopen1 hmem'
  · intro k1 k2 n1 n2 l' h1 h2 hl1 hl2
    simp only [lookupNode_storeNode _ _ _ _ hsome] at h1 h2
    by_cases hk1 : k1 = (ld.c.cell, ld.dirPath)
    · simp only [hk1, if_true, Option.some.injEq] at h1
      subst h1
      cases hl1
    · by_cases hk2 : k2 = (ld.c.cell, ld.dirPath)
      · simp only [hk2, if_true, Option.some.injEq] at h2
        subst h2
        cases hl2
      · simp only [hk1, if_false] at h1
        simp only [hk2, if_false] at h2
        exact hinj k1 k2 n1 n2 l' h1 h2 hl1 hl2

/-- Every step keeps the invariant. -/
theorem step_Inv (s s' : System) (e : Event) (hinv : s.Inv) (h : s.step e = some s') :
    s'.Inv := by
  rcases step_cases s s' e h with
    ⟨c, dirPath, contents, rfl, rfl⟩ |
    ⟨i, dialErr, c, dirPath, contents, u, f', pc, rfl, hi, hb, rfl⟩ |
    ⟨i, ctxErr, sk, c, dirPath, contents, l, u, pc, rfl, hi, hpc, rfl⟩ |
    ⟨i, c, dirPath, contents, ld, err, f', r, rfl, hi, hu, rfl⟩ |
    ⟨rch, rfl, rfl⟩
  · refine ⟨fun k => ?_, hinv.2⟩
    have hsame : System.holders
        ⟨s.factory, s.calls ++ [⟨c, dirPath, contents, LockPc.top, none⟩]⟩ k = s.holders k := by
      simp [System.holders, List.countP_append, List.countP_cons, LockCall.holds]
    rw [hsame]
    exact hinv.1 k
  · rcases lockBody_cases c s.factory f' dialErr dirPath contents pc hb with
      ⟨n, sent', ready', _, _, hn, hl, _, rfl, rfl⟩ | ⟨rfl, hno⟩
    · exact Inv_grant s i c dirPath contents u n sent' ready' hinv hi hn hl
    · refine Inv_same_factory s i _ _ hinv hi (fun k => ?_)
      rw [holds_eq_false k _ hno, holds_eq_false k _ (by intro ld err h; cases h)]
  · refine Inv_same_factory s i _ _ hinv hi (fun k => ?_)
    rw [holds_eq_false k _ (lockSelect_no_descriptor _ _ _ _ _ _ hpc),
      holds_eq_false k _ (by intro ld err h; cases h)]
  · rcases unlock_cases ld.c s.factory f' ld.dirPath r hu with
      ⟨n, l, hn, hl, _, hr, rfl⟩ | ⟨rfl, hr⟩
    · subst hr
      exact Inv_release s i c dirPath contents ld err n l hinv hi hn hl
    · refine Inv_same_factory s i _ _ hinv hi (fun k => ?_)
      cases r with
      | none => exact absurd rfl hr
      | some e => simp [LockCall.holds]
  · exact hinv

theorem run_Inv (evs : List Event) :
    ∀ s s' : System, s.Inv → s.run evs = some s' → s'.Inv := by
  induction evs with
  | nil =>
    intro s s' hinv h
    simp only [System.run, Option.some.injEq] at h
    subst h
    exact hinv
  | cons e es ih =>
    intro s s' hinv h
    simp only [System.run] at h
    cases hs : s.step e with
    | none => simp [hs] at h
    | some s1 =>
      simp only [hs] at h
      exact ih s1 s' (step_Inv s s1 e hinv hs) h

theorem Inv_init (f : Factory) (hf : f.allUnlocked) : System.Inv ⟨f, []⟩ := by
  refine ⟨fun k => Or.inl (by simp [System.holders]), ?_⟩
  intro k1 k2 n1 n2 l h1 _ hl1 _
  have := hf _ (lookupNode_mem k1 n1 f.nodes h1)
  simp only at this
  rw [this] at hl1
  cases hl1

/-- C1 (mutual exclusion): start from a store whose nodes are all unlocked and
with no call in progress, and let any number of callers take any interleaving
of steps (calls of `Lock`, runs of its loop body, `select` cases, `Unlock`
invoked only on a descriptor that a `Lock` returned and at most once per
descriptor, and receives of the watchers).  In every state reached, for every
cell and path at most one descriptor is granted and not yet released. -/
theorem mutual_exclusion (f : Factory) (hf : f.allUnlocked) (evs : List Event) (s : System)
    (hrun : System.run ⟨f, []⟩ evs = some s) (cell path : String) :
    s.holders (cell, path) ≤ 1 := by
  rcases (run_Inv evs ⟨f, []⟩ s (Inv_init f hf) hrun).1 (cell, path) with h | ⟨h, _⟩
  · omega
  · omega

theorem mutual_exclusion_witness :
    storeFree.allUnlocked ∧
    System.run ⟨storeFree, []⟩ handover = some systemAfterHandover ∧
    systemAfterHandover.holders ("zone1", "/keyspace1/shard0") = 1 ∧
    systemAfterHandover.holders ("zone1", "/keyspace1/shard0") ≤ 1 :=
  ⟨by decide, by decide, by decide,
    mutual_exclusion storeFree (by decide) handover systemAfterHandover (by decide)
      "zone1" "/keyspace1/shard0"⟩

/-! ## Check, session failure, cancellation outside the wait -/

/-- C11: `Check` returns nil for every descriptor and every store (it reads
neither its context nor the store) and leaves the store as it is. -/
theorem Check_always_succeeds (ld : memoryTopoLockDescriptor) (f : Factory) :
    ld.Check f = (f, none) := rfl

/-- C15: when `c.dial` fails with `e`, the loop body of `Lock` returns a nil
descriptor and exactly `e` and leaves the store unchanged, whatever the fault
value, the node and its lock state are; this holds for a call at the head of
the loop on its first attempt, and for a call that was blocked and has taken the
case `<-l` of its `select`. -/
theorem Lock_session_failure (e : Error) :
    (∀ (c : Conn) (f : Factory) (dirPath contents : String),
      c.lockBody f (some e) dirPath contents = some (f, LockPc.returned none (some e))) ∧
    (∀ (s : System) (i : Nat) (c : Conn) (dirPath contents : String)
        (u : Option (Option Error)),
      s.calls[i]? = some ⟨c, dirPath, contents, LockPc.top, u⟩ →
      s.step (Event.body i (some e))
        = some ⟨s.factory,
            s.calls.set i ⟨c, dirPath, contents, LockPc.returned none (some e), u⟩⟩) ∧
    (∀ (s : System) (i : Nat) (c : Conn) (dirPath contents : String) (l : Nat)
        (u : Option (Option Error)) (ctxErr : Option Error),
      s.calls[i]? = some ⟨c, dirPath, contents, LockPc.waiting l, u⟩ →
      l ∈ s.factory.closed →
      s.run [Event.select i ctxErr SelectCase.signal, Event.body i (some e)]
        = some ⟨s.factory,
            s.calls.set i ⟨c, dirPath, contents, LockPc.returned none (some e), u⟩⟩) := by
  refine ⟨fun c f dirPath contents => rfl, ?_, ?_⟩
  · intro s i c dirPath contents u hi
    simp [System.step, hi, Conn.lockBody]
  · intro s i c dirPath contents l u ctxErr hi hl
    have hlt : i < s.calls.length := by
      rcases Nat.lt_or_ge i s.calls.length with h | h
      · exact h
      · rw [List.getElem?_eq_none h] at hi
        cases hi
    simp [System.run, System.step, hi, lockSelect, selectReady, hl, hlt, Conn.lockBody]

theorem Lock_session_failure_witness :
    systemOne.step (Event.body 0 (some (Error.other 9)))
      = some ⟨storeFree,
          [⟨connA, "/keyspace1/shard0", "A-election",
            LockPc.returned none (some (Error.other 9)), none⟩]⟩ :=
  (Lock_session_failure (Error.other 9)).2.1 systemOne 0 connA "/keyspace1/shard0"
    "A-election" none (by decide)

/-- C16, as stated, fails when a watcher cannot take the notification: the
call of `connA` on `storeFull` stands at the head of the loop, the session is
live, there is no fault and the node exists and is unlocked, but the run of the
loop body does not return (the send to channel 7 blocks inside the critical
section), and no case of the `select` can be taken either, ctx cancelled or not:
the call returns neither a descriptor nor an error. -/
theorem Lock_blocked_in_send_ignores_ctx :
    systemFull.calls[0]?
      = some ⟨connA, "/keyspace1/shard0", "A-election", LockPc.top, none⟩ ∧
    systemFull.factory.err = none ∧
    systemFull.factory.nodeByPath connA.cell "/keyspace1/shard0"
      = some ⟨none, "", [⟨some 7⟩, ⟨none⟩, ⟨some 8⟩]⟩ ∧
    systemFull.step (Event.body 0 none) = none ∧
    systemFull.step (Event.select 0 (some Error.Canceled) SelectCase.done) = none ∧
    systemFull.step (Event.select 0 (some Error.Canceled) SelectCase.signal) = none := by
  decide

/-- C16, amended: let call `i` stand at the head of the loop, with a live
session, no store fault and an existing unlocked node at `dirPath` whose
watchers' lock channels can accept one send each.  Whatever `ctx.Err()` is
(nil, cancelled, deadline exceeded), no case of the `select` can be taken by
this call, and the loop body grants: the call returns the descriptor
`(c, dirPath)` with a nil error, and the node carries an open signal and
`contents`. -/
theorem Lock_grants_despite_cancelled_ctx (s : System) (i : Nat) (c : Conn)
    (dirPath contents : String) (u : Option (Option Error)) (n : node)
    (hi : s.calls[i]? = some ⟨c, dirPath, contents, LockPc.top, u⟩)
    (hf : s.factory.err = none) (hn : s.factory.nodeByPath c.cell dirPath = some n)
    (hl : n.lock = none) (hroom : List.Subperm n.lockWatchers s.factory.ready) :
    (∀ ctxErr k, s.step (Event.select i ctxErr k) = none) ∧
    ∃ f', s.step (Event.body i none)
        = some ⟨f', s.calls.set i
            ⟨c, dirPath, contents, LockPc.returned (some ⟨c, dirPath⟩) none, u⟩⟩ ∧
      ∃ n' l, f'.nodeByPath c.cell dirPath = some n' ∧ n'.lock = some l ∧
        l ∉ f'.closed ∧ n'.lockContents = contents := by
  obtain ⟨sent', ready', hs, _⟩ :=
    notifyWatches_some contents n.watches [] s.factory.sent s.factory.ready
      (by simpa using hroom)
  refine ⟨fun ctxErr k => by simp [System.step, hi],
    ⟨s.factory.err,
      storeNode (c.cell, dirPath) ⟨some s.factory.makeChan, contents, n.watches⟩ s.factory.nodes,
      s.factory.closed, sent', ready'⟩, ?_, ?_⟩
  · simp only [System.step, hi,
      lockBody_grant c s.factory dirPath contents n sent' ready' hf hn hl hs]
  · refine ⟨⟨some s.factory.makeChan, contents, n.watches⟩, s.factory.makeChan, ?_, rfl,
      makeChan_not_closed s.factory, rfl⟩
    simp [Factory.nodeByPath,
      lookupNode_storeNode_same _ _ _ (nodeByPath_isSome s.factory _ _ n hn)]

theorem Lock_grants_despite_cancelled_ctx_witness :
    systemOne.step (Event.select 0 (some Error.Canceled) SelectCase.done) = none ∧
    ∃ f', systemOne.step (Event.body 0 none)
        = some ⟨f', systemOne.calls.set 0
            ⟨connA, "/keyspace1/shard0", "A-election",
              LockPc.returned (some ⟨connA, "/keyspace1/shard0"⟩) none, none⟩⟩ ∧
      ∃ n' l, f'.nodeByPath connA.cell "/keyspace1/shard0" = some n' ∧ n'.lock = some l ∧
        l ∉ f'.closed ∧ n'.lockContents = "A-election" :=
  ⟨(Lock_grants_despite_cancelled_ctx systemOne 0 connA "/keyspace1/shard0" "A-election" none
      ⟨none, "", [⟨some 7⟩, ⟨none⟩, ⟨some 8⟩]⟩ (by decide) (by decide) (by decide) rfl
      (by decide)).1 (some Error.Canceled) SelectCase.done,
    (Lock_grants_despite_cancelled_ctx systemOne 0 connA "/keyspace1/shard0" "A-election" none
      ⟨none, "", [⟨some 7⟩, ⟨none⟩, ⟨some 8⟩]⟩ (by decide) (by decide) (by decide) rfl
      (by decide)).2⟩

/-! ## Round trip, frame and the contents invariant -/

theorem storeNode_storeNode (k : String × String) (a b : node)
    (ns : List ((String × String) × node)) :
    storeNode k a (storeNode k b ns) = storeNode k a ns := by
  induction ns with
  | nil => simp [storeNode]
  | cons e rest ih =>
    obtain ⟨k', m⟩ := e
    by_cases hk : k' = k
    · simp [storeNode, hk]
    · simp [storeNode, hk, ih]

theorem storeNode_self (k : String × String) (n : node)
    (ns : List ((String × String) × node)) (h : lookupNode k ns = some n) :
    storeNode k n ns = ns := by
  induction ns with
  | nil => simp [storeNode]
  | cons e rest ih =>
    obtain ⟨k', m⟩ := e
    by_cases hk : k' = k
    · simp [lookupNode, hk] at h
      simp [storeNode, hk, h]
    · simp [lookupNode, hk] at h
      simp [storeNode, hk, ih h]

theorem mem_storeNode (k : String × String) (n' : node)
    (ns : List ((String × String) × node)) (e : (String × String) × node)
    (h : e ∈ storeNode k n' ns) : e ∈ ns ∨ e.2 = n' := by
  induction ns with
  | nil => simp [storeNode] at h
  | cons x rest ih =>
    obtain ⟨k', m⟩ := x
    by_cases hk : k' = k
    · simp only [storeNode, hk, if_true, List.mem_cons] at h
      rcases h with h | h
      · right; rw [h]
      · left; exact List.mem_cons_of_mem _ h
    · simp only [storeNode, hk, if_false, List.mem_cons] at h
      rcases h with h | h
      · left; rw [h]; exact List.mem_cons_self _ _
      · rcases ih h with h' | h'
        · left; exact List.mem_cons_of_mem _ h'
        · right; exact h'

/-- C17: on a store without fault whose node at `dirPath` exists, is unlocked
and has empty lock contents: whenever the loop body of `Lock` (session live)
returns a descriptor, it is `(c, dirPath)` with a nil error, `Unlock` on that
descriptor returns nil, and the nodes of the store are then exactly the
original ones (the node is present, unlocked, with empty contents and its
watcher list; every other node is as before), and so is the fault value; and
the loop body does return a descriptor when the lock channels of the node's
watchers can accept one send each.  What remains of the two calls is in the
channels only: the notifications sent to the watchers and the closed signal. -/
theorem Lock_Unlock_round_trip (c : Conn) (f : Factory) (dirPath contents : String)
    (n : node) (hf : f.err = none) (hn : f.nodeByPath c.cell dirPath = some n)
    (hl : n.lock = none) (hc : n.lockContents = "") :
    (∀ (f1 : Factory) (ld : memoryTopoLockDescriptor) (e : Option Error),
      c.lockBody f none dirPath contents = some (f1, LockPc.returned (some ld) e) →
      ld = ⟨c, dirPath⟩ ∧ e = none ∧
      ∃ f2, ld.Unlock f1 = some (f2, none) ∧
        f2.nodes = f.nodes ∧ f2.err = f.err ∧
        f2.nodeByPath c.cell dirPath = some n ∧
        f2.closed = f.makeChan :: f.closed ∧
        f2.sent = f.sent ++ n.lockWatchers.map (fun w => (w, contents))) ∧
    (List.Subperm n.lockWatchers f.ready →
      ∃ f1 ld f2, c.lockBody f none dirPath contents
          = some (f1, LockPc.returned (some ld) none) ∧
        ld.Unlock f1 = some (f2, none) ∧
        f2.nodes = f.nodes ∧ f2.err = f.err ∧
        f2.nodeByPath c.cell dirPath = some n ∧
        f2.closed = f.makeChan :: f.closed ∧
        f2.sent = f.sent ++ n.lockWatchers.map (fun w => (w, contents))) := by
  have hsome := nodeByPath_isSome f c.cell dirPath n hn
  have hcond : ∀ (f1 : Factory) (ld : memoryTopoLockDescriptor) (e : Option Error),
      c.lockBody f none dirPath contents = some (f1, LockPc.returned (some ld) e) →
      ld = ⟨c, dirPath⟩ ∧ e = none ∧
      ∃ f2, ld.Unlock f1 = some (f2, none) ∧
        f2.nodes = f.nodes ∧ f2.err = f.err ∧
        f2.nodeByPath c.cell dirPath = some n ∧
        f2.closed = f.makeChan :: f.closed ∧
        f2.sent = f.sent ++ n.lockWatchers.map (fun w => (w, contents)) := by
    intro f1 ld e hlock
    rcases lockBody_cases c f f1 none dirPath contents _ hlock with
      ⟨n0, sent', ready', _, _, hn0, _, hs, rfl, hpc⟩ | ⟨_, hno⟩
    · rw [hn] at hn0
      cases hn0
      cases hpc
      have hu := unlock_release c
        ⟨f.err, storeNode (c.cell, dirPath) ⟨some f.makeChan, contents, n.watches⟩ f.nodes,
          f.closed, sent', ready'⟩
        dirPath ⟨some f.makeChan, contents, n.watches⟩ f.makeChan
        (by simp [Factory.nodeByPath, lookupNode_storeNode_same _ _ _ hsome]) rfl
        (makeChan_not_closed f)
      have hnode : (⟨none, "", n.watches⟩ : node) = n := by
        obtain ⟨nl, nc, nw⟩ := n
        simp only at hl hc
        rw [hl, hc]
      have hnodes : storeNode (c.cell, dirPath) ⟨none, "", n.watches⟩
          (storeNode (c.cell, dirPath) ⟨some f.makeChan, contents, n.watches⟩ f.nodes)
            = f.nodes := by
        rw [storeNode_storeNode, hnode]
        exact storeNode_self _ _ _ hn
      refine ⟨rfl, rfl, _, hu, hnodes, rfl, ?_, rfl, ?_⟩
      · simp only [Factory.nodeByPath, hnodes]
        exact hn
      · exact notifyWatches_sent contents n.watches _ _ _ _ hs
    · exact absurd rfl (hno ld e)
  refine ⟨hcond, fun hroom => ?_⟩
  obtain ⟨sent', ready', hs, _⟩ :=
    notifyWatches_some contents n.watches [] f.sent f.ready (by simpa using hroom)
  have hb := lockBody_grant c f dirPath contents n sent' ready' hf hn hl hs
  obtain ⟨_, _, f2, hrest⟩ := hcond _ _ _ hb
  exact ⟨_, _, f2, hb, hrest⟩

theorem Lock_Unlock_round_trip_witness :
    storeFree.nodeByPath connA.cell "/keyspace1/shard0"
      = some ⟨none, "", [⟨some 7⟩, ⟨none⟩, ⟨some 8⟩]⟩ ∧
    ∃ f1 ld f2, connA.lockBody storeFree none "/keyspace1/shard0" "A-election"
        = some (f1, LockPc.returned (some ld) none) ∧
      ld.Unlock f1 = some (f2, none) ∧
      f2.nodes = storeFree.nodes ∧ f2.err = storeFree.err ∧
      f2.nodeByPath connA.cell "/keyspace1/shard0"
        = some ⟨none, "", [⟨some 7⟩, ⟨none⟩, ⟨some 8⟩]⟩ ∧
      f2.closed = storeFree.makeChan :: storeFree.closed ∧
      f2.sent = storeFree.sent ++
        (node.lockWatchers ⟨none, "", [⟨some 7⟩, ⟨none⟩, ⟨some 8⟩]⟩).map
          (fun w => (w, "A-election")) :=
  ⟨by decide,
    (Lock_Unlock_round_trip connA storeFree "/keyspace1/shard0" "A-election"
      ⟨none, "", [⟨some 7⟩, ⟨none⟩, ⟨some 8⟩]⟩ (by decide) (by decide) rfl rfl).2
      (by decide)⟩

theorem contentsOk_lockBody (c : Conn) (f f' : Factory) (dialErr : Option Error)
    (dirPath contents : String) (pc : LockPc) (h : f.contentsOk)
    (hb : c.lockBody f dialErr dirPath contents = some (f', pc)) : f'.contentsOk := by
  rcases lockBody_cases c f f' dialErr dirPath contents pc hb with
    ⟨n, sent', ready', _, _, _, _, _, rfl, _⟩ | ⟨rfl, _⟩
  · intro e he hl
    rcases mem_storeNode _ _ _ e he with h1 | h1
    · exact h e h1 hl
    · rw [h1] at hl
      cases hl
  · exact h

theorem contentsOk_unlock (c : Conn) (f f' : Factory) (dirPath : String) (r : Option Error)
    (h : f.contentsOk) (hu : c.unlock f dirPath = some (f', r)) : f'.contentsOk := by
  rcases unlock_cases c f f' dirPath r hu with ⟨n, l, _, _, _, _, rfl⟩ | ⟨rfl, _⟩
  · intro e he _
    rcases mem_storeNode _ _ _ e he with h1 | h1
    · exact h e h1 (by assumption)
    · rw [h1]
  · exact h

theorem contentsOk_exec (ops : List StoreOp) :
    ∀ f f' : Factory, f.contentsOk → f.exec ops = some f' → f'.contentsOk := by
  induction ops with
  | nil =>
    intro f f' h he
    simp only [Factory.exec, Option.some.injEq] at he
    subst he
    exact h
  | cons op rest ih =>
    intro f f' h he
    simp only [Factory.exec] at he
    cases ha : f.apply op with
    | none => simp [ha] at he
    | some f1 =>
      simp only [ha] at he
      refine ih f1 f' ?_ he
      cases op with
      | lock c dialErr dirPath contents =>
        simp only [Factory.apply, Option.map_eq_some'] at ha
        obtain ⟨⟨f2, pc⟩, hb, rfl⟩ := ha
        exact contentsOk_lockBody c f f2 dialErr dirPath contents pc h hb
      | unlock ld =>
        simp only [Factory.apply, Option.map_eq_some'] at ha
        obtain ⟨⟨f2, r⟩, hu, rfl⟩ := ha
        exact contentsOk_unlock ld.c f f2 ld.dirPath r h hu
      | recv ch =>
        simp only [Factory.apply, Option.some.injEq] at ha
        subst ha
        exact h

theorem contentsOk_run (evs : List Event) :
    ∀ s s' : System, s.factory.contentsOk → s.run evs = some s' → s'.factory.contentsOk := by
  induction evs with
  | nil =>
    intro s s' h he
    simp only [System.run, Option.some.injEq] at he
    subst he
    exact h
  | cons e es ih =>
    intro s s' h he
    simp only [System.run] at he
    cases hs : s.step e with
    | none => simp [hs] at he
    | some s1 =>
      simp only [hs] at he
      refine ih s1 s' ?_ he
      rcases step_cases s s1 e hs with
        ⟨c, dirPath, contents, rfl, rfl⟩ |
        ⟨i, dialErr, c, dirPath, contents, u, f', pc, rfl, hi, hb, rfl⟩ |
        ⟨i, ctxErr, sk, c, dirPath, contents, l, u, pc, rfl, hi, hpc, rfl⟩ |
        ⟨i, c, dirPath, contents, ld, err, f', r, rfl, hi, hu, rfl⟩ |
        ⟨rch, rfl, rfl⟩
      · exact h
      · exact contentsOk_lockBody c s.factory f' dialErr dirPath contents pc h hb
      · exact h
      · exact contentsOk_unlock ld.c s.factory f' ld.dirPath r h hu
      · exact h

/-- C14: start from a store whose nodes are all unlocked with empty lock
contents.  After any sequence of runs of the loop body of `Lock` and of `Unlock`
calls on any descriptors, whatever they return (and of receives of the
watchers), and likewise in every state of any interleaving, every node without a
lock signal has empty lock contents. -/
theorem contents_invariant (f : Factory) (hf : f.allUnlockedEmpty) :
    (∀ ops f', f.exec ops = some f' → f'.contentsOk) ∧
    (∀ evs s, System.run ⟨f, []⟩ evs = some s → s.factory.contentsOk) := by
  have h0 : f.contentsOk := fun e he _ => (hf e he).2
  exact ⟨fun ops f' he => contentsOk_exec ops f f' h0 he,
    fun evs s he => contentsOk_run evs ⟨f, []⟩ s h0 he⟩

theorem contents_invariant_witness :
    storeFree.allUnlockedEmpty ∧
    System.run ⟨storeFree, []⟩ handover = some systemAfterHandover ∧
    systemAfterHandover.factory.contentsOk :=
  ⟨by decide, by decide,
    (contents_invariant storeFree (by decide)).2 handover systemAfterHandover (by decide)⟩

/-! ## No lost wake-up -/

theorem lockBody_waiting_inv (c : Conn) (f f' : Factory) (dialErr : Option Error)
    (dirPath contents : String) (l : Nat)
    (h : c.lockBody f dialErr dirPath contents = some (f', LockPc.waiting l)) :
    ∃ n, f.nodeByPath c.cell dirPath = some n ∧ n.lock = some l := by
  unfold Conn.lockBody at h
  cases hd : dialErr with
  | some e => simp [hd] at h
  | none =>
    cases hf : f.err with
    | some e => simp [hd, hf] at h
    | none =>
      cases hn : f.nodeByPath c.cell dirPath with
      | none => simp [hd, hf, hn] at h
      | some n =>
        cases hl : n.lock with
        | none =>
          cases hs : notifyWatches contents n.watches f.sent f.ready with
          | none => simp [hd, hf, hn, hl, hs] at h
          | some r => simp [hd, hf, hn, hl, hs] at h
        | some l' =>
          simp [hd, hf, hn, hl] at h
          exact ⟨n, rfl, by rw [hl, h.2]⟩

theorem lockSelect_not_waiting (f : Factory) (l : Nat) (ctxErr : Option Error)
    (dirPath : String) (k : SelectCase) (pc : LockPc)
    (h : lockSelect f l ctxErr dirPath k = some pc) : ∀ l', pc ≠ LockPc.waiting l' := by
  intro l' hpc
  unfold lockSelect at h
  split at h
  · cases k <;> simp at h <;> rw [← h] at hpc <;> cases hpc
  · cases h

/-- Every step keeps the waiters tied to their signals. -/
theorem step_WaitersTied (s s' : System) (e : Event) (hw : s.WaitersTied)
    (h : s.step e = some s') : s'.WaitersTied := by
  rcases step_cases s s' e h with
    ⟨c, dirPath, contents, rfl, rfl⟩ |
    ⟨i, dialErr, c, dirPath, contents, u, f', pc, rfl, hi, hb, rfl⟩ |
    ⟨i, ctxErr, sk, c, dirPath, contents, l, u, pc, rfl, hi, hpc, rfl⟩ |
    ⟨i, c, dirPath, contents, ld, err, f', r, rfl, hi, hu, rfl⟩ |
    ⟨rch, rfl, rfl⟩
  · intro lc hlc l hl
    rcases List.mem_append.mp hlc with h1 | h1
    · exact hw lc h1 l hl
    · simp only [List.mem_singleton] at h1
      subst h1
      cases hl
  · rcases lockBody_cases c s.factory f' dialErr dirPath contents pc hb with
      ⟨n, sent', ready', _, _, hn, hnl, _, rfl, rfl⟩ | ⟨rfl, _⟩
    · intro lc hlc l hl
      rcases List.mem_or_eq_of_mem_set hlc with h1 | h1
      · rcases hw lc h1 l hl with ⟨m, hm, hml⟩ | hcl
        · by_cases hk : (lc.c.cell, lc.dirPath) = (c.cell, dirPath)
          · have hm' : lookupNode (c.cell, dirPath) s.factory.nodes = some m := by
              rw [← hk]; exact hm
            have hn' : lookupNode (c.cell, dirPath) s.factory.nodes = some n := hn
            rw [hn'] at hm'
            cases hm'
            rw [hnl] at hml
            cases hml
          · left
            exact ⟨m, by
              simp only [Factory.nodeByPath, lookupNode_storeNode_other _ _ _ _ hk]
              exact hm, hml⟩
        · exact Or.inr hcl
      · subst h1
        cases hl
    · intro lc hlc l hl
      rcases List.mem_or_eq_of_mem_set hlc with h1 | h1
      · exact hw lc h1 l hl
      · subst h1
        simp only at hl
        subst hl
        left
        exact lockBody_waiting_inv c s.factory s.factory dialErr dirPath contents l hb
  · intro lc hlc l' hl
    rcases List.mem_or_eq_of_mem_set hlc with h1 | h1
    · exact hw lc h1 l' hl
    · subst h1
      exact absurd hl (lockSelect_not_waiting _ _ _ _ _ _ hpc l')
  · rcases unlock_cases ld.c s.factory f' ld.dirPath r hu with
      ⟨n, l0, hn, hnl, _, _, rfl⟩ | ⟨rfl, _⟩
    · intro lc hlc l hl
      rcases List.mem_or_eq_of_mem_set hlc with h1 | h1
      · rcases hw lc h1 l hl with ⟨m, hm, hml⟩ | hcl
        · by_cases hk : (lc.c.cell, lc.dirPath) = (ld.c.cell, ld.dirPath)
          · have hm' : lookupNode (ld.c.cell, ld.dirPath) s.factory.nodes = some m := by
              rw [← hk]; exact hm
            have hn' : lookupNode (ld.c.cell, ld.dirPath) s.factory.nodes = some n := hn
            rw [hn'] at hm'
            cases hm'
            rw [hnl] at hml
            cases hml
            exact Or.inr (List.mem_cons_self _ _)
          · left
            exact ⟨m, by
              simp only [Factory.nodeByPath, lookupNode_storeNode_other _ _ _ _ hk]
              exact hm, hml⟩
        · exact Or.inr (List.mem_cons_of_mem _ hcl)
      · subst h1
        cases hl
    · intro lc hlc l hl
      rcases List.mem_or_eq_of_mem_set hlc with h1 | h1
      · exact hw lc h1 l hl
      · subst h1
        cases hl
  · exact hw

theorem run_WaitersTied (evs : List Event) :
    ∀ s s' : System, s.WaitersTied → s.run evs = some s' → s'.WaitersTied := by
  induction evs with
  | nil =>
    intro s s' hw h
    simp only [System.run, Option.some.injEq] at h
    subst h
    exact hw
  | cons e es ih =>
    intro s s' hw h
    simp only [System.run] at h
    cases hs : s.step e with
    | none => simp [hs] at h
    | some s1 =>
      simp only [hs] at h
      exact ih s1 s' (step_WaitersTied s s1 e hw hs) h

/-- A closed signal stays closed. -/
theorem step_closed_mono (s s' : System) (e : Event) (h : s.step e = some s') :
    ∀ l ∈ s.factory.closed, l ∈ s'.factory.closed := by
  intro l hl
  rcases step_cases s s' e h with
    ⟨c, dirPath, contents, rfl, rfl⟩ |
    ⟨i, dialErr, c, dirPath, contents, u, f', pc, rfl, hi, hb, rfl⟩ |
    ⟨i, ctxErr, sk, c, dirPath, contents, l1, u, pc, rfl, hi, hpc, rfl⟩ |
    ⟨i, c, dirPath, contents, ld, err, f', r, rfl, hi, hu, rfl⟩ |
    ⟨rch, rfl, rfl⟩
  · exact hl
  · rcases lockBody_cases c s.factory f' dialErr dirPath contents pc hb with
      ⟨n, sent', ready', _, _, _, _, _, rfl, _⟩ | ⟨rfl, _⟩
    · exact hl
    · exact hl
  · exact hl
  · rcases unlock_cases ld.c s.factory f' ld.dirPath r hu with
      ⟨n, l0, _, _, _, _, rfl⟩ | ⟨rfl, _⟩
    · exact List.mem_cons_of_mem _ hl
    · exact hl
  · exact hl

theorem run_closed_mono (evs : List Event) :
    ∀ s s' : System, s.run evs = some s' → ∀ l ∈ s.factory.closed, l ∈ s'.factory.closed := by
  induction evs with
  | nil =>
    intro s s' h l hl
    simp only [System.run, Option.some.injEq] at h
    subst h
    exact hl
  | cons e es ih =>
    intro s s' h l hl
    simp only [System.run] at h
    cases hs : s.step e with
    | none => simp [hs] at h
    | some s1 =>
      simp only [hs] at h
      exact ih s1 s' h l (step_closed_mono s s1 e hs l hl)

/-- C13: in every state reached from a store with no call in progress, (1) every
call blocked in the `select` holds a signal that is the current signal of its
node, still locked, or a signal that is closed; (2) the signal that the next
grant installs differs from the signal of every blocked call; (3) a closed
signal stays closed along every further run, so the case `<-l` of a `select` on
it can proceed in every later state, whatever has happened to the node since;
(4) a successful `Unlock` on the node of a blocked call leaves the signal of
that call closed. -/
theorem no_lost_wakeup (f : Factory) (evs : List Event) (s : System)
    (hrun : System.run ⟨f, []⟩ evs = some s) :
    s.WaitersOk ∧
    (∀ lc ∈ s.calls, ∀ l, lc.pc = LockPc.waiting l → l ≠ s.factory.makeChan) ∧
    (∀ evs' s', s.run evs' = some s' → ∀ l ∈ s.factory.closed,
      l ∈ s'.factory.closed ∧
      ∀ ctxErr p, lockSelect s'.factory l ctxErr p SelectCase.signal = some LockPc.top) ∧
    (∀ lc ∈ s.calls, ∀ l, lc.pc = LockPc.waiting l →
      ∀ (ld : memoryTopoLockDescriptor) (f' : Factory), ld.c.cell = lc.c.cell →
        ld.dirPath = lc.dirPath → ld.Unlock s.factory = some (f', none) →
        l ∈ f'.closed) := by
  have h0 : System.WaitersTied ⟨f, []⟩ := by
    intro lc hlc
    simp at hlc
  have hw := run_WaitersTied evs ⟨f, []⟩ s h0 hrun
  refine ⟨?_, ?_, ?_, ?_⟩
  · intro lc hlc l hl
    by_cases hcl : l ∈ s.factory.closed
    · exact Or.inr hcl
    · rcases hw lc hlc l hl with ⟨n, hn, hnl⟩ | h
      · exact Or.inl ⟨n, hn, hnl, hcl⟩
      · exact Or.inr h
  · intro lc hlc l hl heq
    have hmem : l ∈ s.factory.chans := by
      rcases hw lc hlc l hl with ⟨n, hn, hnl⟩ | h
      · exact lock_mem_chans s.factory _ n l hn hnl
      · unfold Factory.chans
        exact List.mem_append_left _ h
    rw [heq] at hmem
    exact makeChan_not_mem_chans s.factory hmem
  · intro evs' s' hrun' l hl
    have hl' := run_closed_mono evs' s s' hrun' l hl
    exact ⟨hl', fun ctxErr p => by simp [lockSelect, selectReady, hl']⟩
  · intro lc hlc l hl ld f' hcell hpath hu
    rcases unlock_cases ld.c s.factory f' ld.dirPath none hu with
      ⟨n, l0, hn, hnl, _, _, rfl⟩ | ⟨_, hne⟩
    · rcases hw lc hlc l hl with ⟨m, hm, hml⟩ | h
      · rw [← hcell, ← hpath, hn] at hm
        cases hm
        rw [hnl] at hml
        cases hml
        exact List.mem_cons_self _ _
      · exact List.mem_cons_of_mem _ h
    · exact absurd rfl hne

theorem no_lost_wakeup_witness :
    System.run ⟨storeFree, []⟩ contention = some systemContended ∧
    systemContended.WaitersOk :=
  ⟨by decide, (no_lost_wakeup storeFree contention systemContended (by decide)).1⟩

/-! ## Fan-out then race -/

theorem run_append (a b : List Event) :
    ∀ s : System, s.run (a ++ b) = (s.run a).bind (fun s1 => s1.run b) := by
  induction a with
  | nil => intro s; simp [System.run]
  | cons e es ih =>
    intro s
    simp only [List.cons_append, System.run]
    cases s.step e with
    | none => simp
    | some s1 => simp [ih s1]

theorem getElem?_set_ne (calls : List LockCall) (i j : Nat) (x : LockCall) (h : j ≠ i) :
    (calls.set i x)[j]? = calls[j]? := by
  simp [List.getElem?_set, Ne.symm h]

theorem getElem?_set_self (calls : List LockCall) (i : Nat) (x old : LockCall)
    (h : calls[i]? = some old) : (calls.set i x)[i]? = some x := by
  have hlt : i < calls.length := by
    rcases Nat.lt_or_ge i calls.length with h1 | h1
    · exact h1
    · rw [List.getElem?_eq_none h1] at h
      cases h
  simp [List.getElem?_set, hlt]

/-- Running one event per call of `js`, each of which only rewrites its own
call and leaves the store alone and turns a call that satisfies `P` into one
that satisfies `Q`. -/
theorem run_each (ev : Nat → Event) (G : Factory → Prop) (P Q : LockCall → Prop)
    (hstep : ∀ (s : System) (j : Nat) (lc : LockCall), G s.factory → s.calls[j]? = some lc →
      P lc → ∃ lc', Q lc' ∧ s.step (ev j) = some ⟨s.factory, s.calls.set j lc'⟩) :
    ∀ (js : List Nat) (s : System), G s.factory → js.Nodup →
      (∀ j ∈ js, ∃ lc, s.calls[j]? = some lc ∧ P lc) →
      ∃ s', s.run (js.map ev) = some s' ∧ s'.factory = s.factory ∧
        (∀ j ∈ js, ∃ lc, s'.calls[j]? = some lc ∧ Q lc) ∧
        (∀ j, j ∉ js → s'.calls[j]? = s.calls[j]?) := by
  intro js
  induction js with
  | nil =>
    intro s _ _ _
    exact ⟨s, rfl, rfl, fun j hj => by simp at hj, fun _ _ => rfl⟩
  | cons j rest ih =>
    intro s hG hnd hP
    obtain ⟨lc, hlc, hPlc⟩ := hP j (List.mem_cons_self _ _)
    obtain ⟨lc', hQ, hs⟩ := hstep s j lc hG hlc hPlc
    have hjr : j ∉ rest := (List.nodup_cons.mp hnd).1
    have hrest : ∀ j' ∈ rest, ∃ lc, (s.calls.set j lc')[j']? = some lc ∧ P lc := by
      intro j' hj'
      have hne : j' ≠ j := fun h => hjr (h ▸ hj')
      rw [getElem?_set_ne _ _ _ _ hne]
      exact hP j' (List.mem_cons_of_mem _ hj')
    obtain ⟨s', hrun, hfac, hQs, hout⟩ :=
      ih ⟨s.factory, s.calls.set j lc'⟩ hG (List.nodup_cons.mp hnd).2 hrest
    refine ⟨s', by simp only [List.map_cons, System.run, hs]; exact hrun, hfac, ?_, ?_⟩
    · intro j' hj'
      rcases List.mem_cons.mp hj' with h1 | h1
      · subst h1
        refine ⟨lc', ?_, hQ⟩
        rw [hout j' hjr]
        exact getElem?_set_self _ _ _ _ hlc
      · exact hQs j' h1
    · intro j' hj'
      have hne : j' ≠ j := fun h => hj' (h ▸ List.mem_cons_self _ _)
      rw [hout j' (fun h => hj' (List.mem_cons_of_mem _ h))]
      exact getElem?_set_ne _ _ _ _ hne

theorem contends_iff (cell dirPath : String) (lc : LockCall) :
    lc.contends cell dirPath = true ↔
      ∃ c ct, lc = ⟨c, dirPath, ct, LockPc.top, none⟩ ∧ c.cell = cell := by
  obtain ⟨c, dp, ct, pc, u⟩ := lc
  simp only [LockCall.contends, decide_eq_true_eq]
  constructor
  · rintro ⟨h1, h2, h3, h4⟩
    subst h2 h3 h4
    exact ⟨c, ct, rfl, h1⟩
  · rintro ⟨c', ct', h, hc⟩
    cases h
    exact ⟨hc, rfl, rfl, rfl⟩

theorem blockedOn_iff (cell dirPath : String) (l : Nat) (lc : LockCall) :
    lc.blockedOn cell dirPath l = true ↔
      ∃ c ct, lc = ⟨c, dirPath, ct, LockPc.waiting l, none⟩ ∧ c.cell = cell := by
  obtain ⟨c, dp, ct, pc, u⟩ := lc
  simp only [LockCall.blockedOn, decide_eq_true_eq]
  constructor
  · rintro ⟨h1, h2, h3, h4⟩
    subst h2 h3 h4
    exact ⟨c, ct, rfl, h1⟩
  · rintro ⟨c', ct', h, hc⟩
    cases h
    exact ⟨hc, rfl, rfl, rfl⟩

theorem map_eq_some_true (g : LockCall → Bool) (o : Option LockCall) :
    o.map g = some true ↔ ∃ lc, o = some lc ∧ g lc = true := by
  cases o with
  | none => simp
  | some lc => simp

/-- A contender that finds the node locked on `l` blocks on `l`. -/
theorem body_blocks (cell dirPath : String) (l : Nat) (s : System) (j : Nat) (lc : LockCall)
    (hG : s.factory.err = none ∧
      ∃ n, s.factory.nodeByPath cell dirPath = some n ∧ n.lock = some l)
    (hj : s.calls[j]? = some lc) (hP : lc.contends cell dirPath = true) :
    ∃ lc', lc'.blockedOn cell dirPath l = true ∧
      s.step (Event.body j none) = some ⟨s.factory, s.calls.set j lc'⟩ := by
  obtain ⟨c, ct, rfl, hc⟩ := (contends_iff cell dirPath lc).mp hP
  obtain ⟨herr, n, hn, hl⟩ := hG
  refine ⟨⟨c, dirPath, ct, LockPc.waiting l, none⟩,
    (blockedOn_iff cell dirPath l _).mpr ⟨c, ct, rfl, hc⟩, ?_⟩
  rw [← hc] at hn
  simp only [System.step, hj, lockBody_waiting c s.factory dirPath ct n l herr hn hl]

/-- A call blocked on a closed signal can take the case `<-l` and contends again. -/
theorem select_wakes (cell dirPath : String) (l : Nat) (s : System) (j : Nat) (lc : LockCall)
    (hG : l ∈ s.factory.closed) (hj : s.calls[j]? = some lc)
    (hP : lc.blockedOn cell dirPath l = true) :
    ∃ lc', lc'.contends cell dirPath = true ∧
      s.step (Event.select j none SelectCase.signal)
        = some ⟨s.factory, s.calls.set j lc'⟩ := by
  obtain ⟨c, ct, rfl, hc⟩ := (blockedOn_iff cell dirPath l lc).mp hP
  refine ⟨⟨c, dirPath, ct, LockPc.top, none⟩,
    (contends_iff cell dirPath _).mpr ⟨c, ct, rfl, hc⟩, ?_⟩
  simp [System.step, hj, lockSelect, selectReady, hG]

/-- One round of the race: the first contender wins, the others block on the
new signal, the winner unlocks, every blocked call can wake up, and once they
have, the others contend again on the unlocked node. -/
theorem race_round (s : System) (cell dirPath : String) (i : Nat) (rest : List Nat)
    (h : s.Contend cell dirPath (i :: rest)) (hroom : s.Room cell dirPath (rest.length + 1)) :
    ∃ s1 s2 s3 s4 l,
      s.step (Event.body i none) = some s1 ∧
      s1.run (rest.map (fun j => Event.body j none)) = some s2 ∧
      (s2.factory.nodeByPath cell dirPath).map node.lock = some (some l) ∧
      l ∉ s2.factory.closed ∧
      (s2.calls[i]?).map (LockCall.granted cell dirPath) = some true ∧
      (∀ j ∈ rest, (s2.calls[j]?).map (LockCall.blockedOn cell dirPath l) = some true) ∧
      (∀ j ∈ rest, ∀ k, s2.step (Event.select j none k) = none) ∧
      s2.step (Event.unlock i) = some s3 ∧
      (s3.calls[i]?).map LockCall.unlocked = some (some none) ∧
      (∀ j ∈ rest, (s3.step (Event.select j none SelectCase.signal)).isSome = true) ∧
      s3.run (rest.map (fun j => Event.select j none SelectCase.signal)) = some s4 ∧
      s4.Contend cell dirPath rest ∧
      s4.Room cell dirPath rest.length ∧
      (s4.calls[i]?).map (LockCall.granted cell dirPath) = some true ∧
      (∀ j, j ∉ i :: rest → s4.calls[j]? = s.calls[j]?) := by
  obtain ⟨herr, hnode, hnd, hall⟩ := h
  obtain ⟨n, hn, hl⟩ := Option.map_eq_some'.mp hnode
  obtain ⟨lci, hi, hci⟩ := (map_eq_some_true _ _).mp (hall i (List.mem_cons_self _ _))
  obtain ⟨c, ct, rfl, hc⟩ := (contends_iff cell dirPath lci).mp hci
  have hir : i ∉ rest := (List.nodup_cons.mp hnd).1
  have hndr : rest.Nodup := (List.nodup_cons.mp hnd).2
  have hnc : s.factory.nodeByPath c.cell dirPath = some n := by rw [hc]; exact hn
  have hsome := nodeByPath_isSome s.factory cell dirPath n hn
  -- the sends of this grant complete and leave room for the later ones
  have hroom' : List.Subperm (n.watches.filterMap (fun w => w.lock)
      ++ repeatChans rest.length n.lockWatchers) s.factory.ready := by
    unfold System.Room at hroom
    rw [hn] at hroom
    simpa [repeatChans, node.lockWatchers] using hroom
  obtain ⟨sent', ready', hs, hleft⟩ :=
    notifyWatches_some ct n.watches (repeatChans rest.length n.lockWatchers)
      s.factory.sent s.factory.ready hroom'
  -- the winner
  have hs1 := lockBody_grant c s.factory dirPath ct n sent' ready' herr hnc hl hs
  rw [hc] at hs1
  have hstep1 : s.step (Event.body i none)
      = some ⟨⟨s.factory.err,
          storeNode (cell, dirPath) ⟨some s.factory.makeChan, ct, n.watches⟩ s.factory.nodes,
          s.factory.closed, sent', ready'⟩,
        s.calls.set i ⟨c, dirPath, ct, LockPc.returned (some ⟨c, dirPath⟩) none, none⟩⟩ := by
    simp only [System.step, hi, hs1]
  have hnode1 : Factory.nodeByPath ⟨s.factory.err,
      storeNode (cell, dirPath) ⟨some s.factory.makeChan, ct, n.watches⟩ s.factory.nodes,
      s.factory.closed, sent', ready'⟩ cell dirPath
        = some ⟨some s.factory.makeChan, ct, n.watches⟩ := by
    simp [Factory.nodeByPath, lookupNode_storeNode_same _ _ _ hsome]
  -- the others block
  obtain ⟨s2, hrun2, hfac2, hblk2, hout2⟩ :=
    run_each (fun j => Event.body j none)
      (fun f => f.err = none ∧
        ∃ m, f.nodeByPath cell dirPath = some m ∧ m.lock = some s.factory.makeChan)
      (fun lc => lc.contends cell dirPath = true)
      (fun lc => lc.blockedOn cell dirPath s.factory.makeChan = true)
      (fun s' j lc hG hj hP => body_blocks cell dirPath _ s' j lc hG hj hP)
      rest
      ⟨⟨s.factory.err,
          storeNode (cell, dirPath) ⟨some s.factory.makeChan, ct, n.watches⟩ s.factory.nodes,
          s.factory.closed, sent', ready'⟩,
        s.calls.set i ⟨c, dirPath, ct, LockPc.returned (some ⟨c, dirPath⟩) none, none⟩⟩
      ⟨herr, _, hnode1, rfl⟩ hndr
      (fun j hj => by
        have hne : j ≠ i := fun h => hir (h ▸ hj)
        simp only [getElem?_set_ne _ _ _ _ hne]
        exact (map_eq_some_true _ _).mp (hall j (List.mem_cons_of_mem _ hj)))
  have hi2 : s2.calls[i]?
      = some ⟨c, dirPath, ct, LockPc.returned (some ⟨c, dirPath⟩) none, none⟩ := by
    rw [hout2 i hir]
    exact getElem?_set_self _ _ _ _ hi
  have hnode2 : s2.factory.nodeByPath cell dirPath
      = some ⟨some s.factory.makeChan, ct, n.watches⟩ := by rw [hfac2]; exact hnode1
  have hopen2 : s.factory.makeChan ∉ s2.factory.closed := by
    rw [hfac2]; exact makeChan_not_closed s.factory
  -- the winner unlocks
  have hnode2c : s2.factory.nodeByPath c.cell dirPath
      = some ⟨some s.factory.makeChan, ct, n.watches⟩ := by rw [hc]; exact hnode2
  have hu := unlock_release c s2.factory dirPath _ s.factory.makeChan hnode2c rfl hopen2
  rw [hc] at hu
  have hstep3 : s2.step (Event.unlock i)
      = some ⟨⟨s2.factory.err,
          storeNode (cell, dirPath) ⟨none, "", n.watches⟩ s2.factory.nodes,
          s.factory.makeChan :: s2.factory.closed, s2.factory.sent, s2.factory.ready⟩,
        s2.calls.set i
          ⟨c, dirPath, ct, LockPc.returned (some ⟨c, dirPath⟩) none, some none⟩⟩ := by
    simp only [System.step, hi2, memoryTopoLockDescriptor.Unlock, hu]
  have hblk3 : ∀ j ∈ rest, ∃ lc,
      (s2.calls.set i
        ⟨c, dirPath, ct, LockPc.returned (some ⟨c, dirPath⟩) none, some none⟩)[j]? = some lc ∧
      lc.blockedOn cell dirPath s.factory.makeChan = true := by
    intro j hj
    have hne : j ≠ i := fun h => hir (h ▸ hj)
    simp only [getElem?_set_ne _ _ _ _ hne]
    exact hblk2 j hj
  -- every blocked call wakes up
  obtain ⟨s4, hrun4, hfac4, hcon4, hout4⟩ :=
    run_each (fun j => Event.select j none SelectCase.signal)
      (fun f => s.factory.makeChan ∈ f.closed)
      (fun lc => lc.blockedOn cell dirPath s.factory.makeChan = true)
      (fun lc => lc.contends cell dirPath = true)
      (fun s' j lc hG hj hP => select_wakes cell dirPath _ s' j lc hG hj hP)
      rest
      ⟨⟨s2.factory.err,
          storeNode (cell, dirPath) ⟨none, "", n.watches⟩ s2.factory.nodes,
          s.factory.makeChan :: s2.factory.closed, s2.factory.sent, s2.factory.ready⟩,
        s2.calls.set i
          ⟨c, dirPath, ct, LockPc.returned (some ⟨c, dirPath⟩) none, some none⟩⟩
      (List.mem_cons_self _ _) hndr hblk3
  have hsome2 := nodeByPath_isSome s2.factory cell dirPath _ hnode2
  refine ⟨_, s2, _, s4, s.factory.makeChan, hstep1, hrun2, ?_, hopen2, ?_, ?_, ?_, hstep3, ?_,
    ?_, hrun4, ⟨?_, ?_, hndr, ?_⟩, ?_, ?_, ?_⟩
  · rw [hnode2]; rfl
  · rw [hi2]
    simp [LockCall.granted, hc]
  · intro j hj
    exact (map_eq_some_true _ _).mpr (hblk2 j hj)
  · intro j hj k
    obtain ⟨lc, hlc, hb⟩ := hblk2 j hj
    obtain ⟨c', ct', rfl, _⟩ := (blockedOn_iff cell dirPath _ lc).mp hb
    cases k <;> simp [System.step, hlc, lockSelect, selectReady, hopen2]
  · rw [getElem?_set_self _ _ _ _ hi2]; rfl
  · intro j hj
    obtain ⟨lc, hlc, hb⟩ := hblk3 j hj
    obtain ⟨lc', _, hs⟩ := select_wakes cell dirPath s.factory.makeChan
      ⟨⟨s2.factory.err,
          storeNode (cell, dirPath) ⟨none, "", n.watches⟩ s2.factory.nodes,
          s.factory.makeChan :: s2.factory.closed, s2.factory.sent, s2.factory.ready⟩,
        s2.calls.set i
          ⟨c, dirPath, ct, LockPc.returned (some ⟨c, dirPath⟩) none, some none⟩⟩
      j lc (List.mem_cons_self _ _) hlc hb
    rw [hs]; rfl
  · rw [hfac4, hfac2]; exact herr
  · rw [hfac4]
    simp [Factory.nodeByPath, lookupNode_storeNode_same _ _ _ hsome2]
  · intro j hj
    exact (map_eq_some_true _ _).mpr (hcon4 j hj)
  · unfold System.Room
    rw [hfac4]
    simp only [Factory.nodeByPath, lookupNode_storeNode_same _ _ _ hsome2, Option.map_some',
      Option.some.injEq, decide_eq_true_eq]
    rw [hfac2]
    exact hleft
  · rw [hout4 i hir, getElem?_set_self _ _ _ _ hi2]
    simp [LockCall.granted, hc]
  · intro j hj
    have hne : j ≠ i := fun h => hj (h ▸ List.mem_cons_self _ _)
    have hjr : j ∉ rest := fun h => hj (List.mem_cons_of_mem _ h)
    rw [hout4 j hjr, getElem?_set_ne _ _ _ _ hne, hout2 j hjr, getElem?_set_ne _ _ _ _ hne]

/-- The whole race: every contender ends with its descriptor. -/
theorem race_all (cell dirPath : String) :
    ∀ (ws : List Nat) (s : System), s.Contend cell dirPath ws → s.Room cell dirPath ws.length →
      ∃ sEnd, s.run (raceEvents ws) = some sEnd ∧
        (∀ j ∈ ws, (sEnd.calls[j]?).map (LockCall.granted cell dirPath) = some true) ∧
        (∀ j, j ∉ ws → sEnd.calls[j]? = s.calls[j]?) := by
  intro ws
  induction ws with
  | nil =>
    intro s _ _
    exact ⟨s, rfl, fun j hj => by simp at hj, fun _ _ => rfl⟩
  | cons i rest ih =>
    intro s h hroom
    have hir : i ∉ rest := (List.nodup_cons.mp h.2.2.1).1
    obtain ⟨s1, s2, s3, s4, l, hs1, hr2, _, _, _, _, _, hs3, _, _, hr4, hcon, hroom4, hgi,
        hout⟩ := race_round s cell dirPath i rest h hroom
    obtain ⟨sEnd, hrun, hall, hrest⟩ := ih s4 hcon hroom4
    refine ⟨sEnd, ?_, ?_, ?_⟩
    · have hev : raceEvents (i :: rest)
          = Event.body i none :: (rest.map (fun j => Event.body j none) ++
              (Event.unlock i :: (rest.map (fun j => Event.select j none SelectCase.signal) ++
                raceEvents rest))) := by
        simp [raceEvents]
      rw [hev]
      simp only [System.run, hs1]
      rw [run_append, hr2]
      simp only [Option.some_bind, System.run, hs3]
      rw [run_append, hr4]
      simp only [Option.some_bind, hrun]
    · intro j hj
      rcases List.mem_cons.mp hj with h1 | h1
      · subst h1
        rw [hrest j hir]
        exact hgi
      · exact hall j h1
    · intro j hj
      rw [hrest j (fun h1 => hj (List.mem_cons_of_mem _ h1))]
      exact hout j hj

/-- C12, as stated, fails when a watcher cannot take the notification: the
single call of `connA` (N = 1) contends for the unlocked node of `storeFull`
with a live session, no fault and no cancellation, but its run of the loop body
does not return (the send to channel 7 blocks), so no call succeeds. -/
theorem race_blocks_on_full_watcher :
    systemFull.Contend "zone1" "/keyspace1/shard0" [0] ∧
    systemFull.step (Event.body 0 none) = none ∧
    systemFull.run (raceEvents [0]) = none :=
  ⟨⟨by decide, by decide, by decide, by decide⟩, by decide, by decide⟩

/-- C12, amended: let the calls `i :: rest` (N ≥ 1 of them) all stand at the
head of the loop of `Lock` for the same unlocked node, on a store without fault,
with live sessions and no cancellation, let the lock channels of the node's
watchers be able to accept the notifications of N grants, and let the calls run
the loop body in this order.  Then `i`, the first to enter, returns its
descriptor at once and every other call blocks on the signal `l` that this grant
installed: as long as `l` is open and its context is not done, no case of its
`select` can proceed.  The `Unlock` of `i` returns nil and then the case `<-l`
can proceed for every blocked call; once they have all taken it, the calls of
`rest` contend for the unlocked node as before (so the same holds for them, in
any order).  Repeating this, the run `raceEvents (i :: rest)` ends with every
one of the N calls holding its descriptor returned with a nil error. -/
theorem fan_out_then_race (s : System) (cell dirPath : String) (i : Nat) (rest : List Nat)
    (h : s.Contend cell dirPath (i :: rest)) (hroom : s.Room cell dirPath (rest.length + 1)) :
    (∃ s1 s2 s3 s4 l,
      s.step (Event.body i none) = some s1 ∧
      s1.run (rest.map (fun j => Event.body j none)) = some s2 ∧
      (s2.factory.nodeByPath cell dirPath).map node.lock = some (some l) ∧
      l ∉ s2.factory.closed ∧
      (s2.calls[i]?).map (LockCall.granted cell dirPath) = some true ∧
      (∀ j ∈ rest, (s2.calls[j]?).map (LockCall.blockedOn cell dirPath l) = some true) ∧
      (∀ j ∈ rest, ∀ k, s2.step (Event.select j none k) = none) ∧
      s2.step (Event.unlock i) = some s3 ∧
      (s3.calls[i]?).map LockCall.unlocked = some (some none) ∧
      (∀ j ∈ rest, (s3.step (Event.select j none SelectCase.signal)).isSome = true) ∧
      s3.run (rest.map (fun j => Event.select j none SelectCase.signal)) = some s4 ∧
      s4.Contend cell dirPath rest ∧
      s4.Room cell dirPath rest.length ∧
      (s4.calls[i]?).map (LockCall.granted cell dirPath) = some true ∧
      (∀ j, j ∉ i :: rest → s4.calls[j]? = s.calls[j]?)) ∧
    ∃ sEnd, s.run (raceEvents (i :: rest)) = some sEnd ∧
      ∀ j ∈ i :: rest, (sEnd.calls[j]?).map (LockCall.granted cell dirPath) = some true := by
  refine ⟨race_round s cell dirPath i rest h hroom, ?_⟩
  obtain ⟨sEnd, hrun, hall, _⟩ := race_all cell dirPath (i :: rest) s h hroom
  exact ⟨sEnd, hrun, hall⟩

theorem fan_out_then_race_witness :
    systemThree.Contend "zone1" "/keyspace1/shard0" [1, 0, 2] ∧
    systemThree.Room "zone1" "/keyspace1/shard0" 3 ∧
    ∃ sEnd, systemThree.run (raceEvents [1, 0, 2]) = some sEnd ∧
      ∀ j ∈ [1, 0, 2],
        (sEnd.calls[j]?).map (LockCall.granted "zone1" "/keyspace1/shard0") = some true :=
  ⟨⟨by decide, by decide, by decide, by decide⟩, by decide,
    (fan_out_then_race systemThree "zone1" "/keyspace1/shard0" 1 [0, 2]
      ⟨by decide, by decide, by decide, by decide⟩ (by decide)).2⟩

end memorytopo
